import Mathlib

/-!
Verification of the document model, query/update engine and storage layer of
the nedb fork (files: the model module with serialize/deserialize, checkKey,
compareThings, match, modify, getDotValue; the utils module; the storage
module with ensureDatafileIntegrity).

Embedding conventions:
* A JS value is the inductive `Value`: leaves are numbers (modeled as `Int`;
  the repository only relies on integral arithmetic and ordering in the
  claims at hand), strings, booleans, null, undefined and dates (epoch
  milliseconds as `Int`); interior nodes are arrays and objects.  Objects
  are association lists in insertion order; JS objects have unique keys, so
  lookups read the first occurrence.
* JS strict equality (===) is modeled structurally (`BEq` below).  It is
  exact on primitives; two separately built composite values are distinct
  references in JS and hence non-identical there, while the model identifies
  structurally equal trees.  Every theorem below only depends on the
  primitive cases or on the direction (structurally different implies
  JS-different), which is exact.
* Exceptions are `Except JsErr`, with one constructor per distinct throw
  site family of the source.
* Host facilities that are not part of the repository (RegExp compilation
  and matching, Function compilation for the where operator, property slots
  on array objects) are modeled at the boundary and documented at each spot.
-/

namespace Nedb

/-- A JS value tree as stored and queried by the datastore. -/
inductive Value : Type where
  | undef : Value
  | vnull : Value
  | num (n : Int) : Value
  | str (s : String) : Value
  | bool (b : Bool) : Value
  | date (t : Int) : Value
  | arr (elems : List Value) : Value
  | obj (fields : List (String × Value)) : Value
  deriving Repr, Inhabited

namespace Value

mutual
/-- Size measure used for termination of the recursive source functions. -/
def vsize : Value → Nat
  | undef | vnull | num _ | str _ | bool _ | date _ => 1
  | arr elems => 2 + vsizeList elems
  | obj fields => 2 + vsizeFields fields
/-- Sum of sizes of a list of values (one extra per element slot). -/
def vsizeList : List Value → Nat
  | [] => 0
  | v :: vs => 1 + vsize v + vsizeList vs
/-- Sum of sizes of the fields of an object (one extra for each key slot). -/
def vsizeFields : List (String × Value) → Nat
  | [] => 0
  | (_, v) :: fs => 1 + vsize v + vsizeFields fs
end

mutual
/-- Structural equality of value trees (decidable equality helper). -/
def beqV : Value → Value → Bool
  | undef, undef => true
  | vnull, vnull => true
  | num a, num b => a = b
  | str a, str b => a = b
  | bool a, bool b => a = b
  | date a, date b => a = b
  | arr a, arr b => beqL a b
  | obj a, obj b => beqF a b
  | _, _ => false
/-- Structural equality on lists of values. -/
def beqL : List Value → List Value → Bool
  | [], [] => true
  | a :: as', b :: bs' => beqV a b && beqL as' bs'
  | _, _ => false
/-- Structural equality on field lists. -/
def beqF : List (String × Value) → List (String × Value) → Bool
  | [], [] => true
  | (k, a) :: as', (l, b) :: bs' => k = l && beqV a b && beqF as' bs'
  | _, _ => false
end

mutual
theorem beqV_iff : ∀ a b : Value, beqV a b = true ↔ a = b
  | undef, b => by cases b <;> simp [beqV]
  | vnull, b => by cases b <;> simp [beqV]
  | num _, b => by cases b <;> simp [beqV]
  | str _, b => by cases b <;> simp [beqV]
  | bool _, b => by cases b <;> simp [beqV]
  | date _, b => by cases b <;> simp [beqV]
  | arr a, b => by
      cases b with
      | arr bs => simp only [beqV, arr.injEq]; exact beqL_iff a bs
      | _ => simp [beqV]
  | obj a, b => by
      cases b with
      | obj bs => simp only [beqV, obj.injEq]; exact beqF_iff a bs
      | _ => simp [beqV]
theorem beqL_iff : ∀ a b : List Value, beqL a b = true ↔ a = b
  | [], b => by cases b <;> simp [beqL]
  | a :: as', b => by
      cases b with
      | nil => simp [beqL]
      | cons c cs =>
          simp only [beqL, Bool.and_eq_true, List.cons.injEq]
          rw [beqV_iff a c, beqL_iff as' cs]
theorem beqF_iff : ∀ a b : List (String × Value), beqF a b = true ↔ a = b
  | [], b => by cases b <;> simp [beqF]
  | (k, a) :: as', b => by
      cases b with
      | nil => simp [beqF]
      | cons c cs =>
          obtain ⟨l, b0⟩ := c
          simp only [beqF, Bool.and_eq_true, List.cons.injEq, Prod.mk.injEq,
            decide_eq_true_eq]
          rw [beqV_iff a b0, beqF_iff as' cs, and_assoc]
end

instance : DecidableEq Value := fun a b =>
  decidable_of_iff (beqV a b = true) (beqV_iff a b)

attribute [simp] vsize vsizeList vsizeFields

theorem vsize_pos (v : Value) : 1 ≤ v.vsize := by
  cases v <;> simp [vsize] <;> omega

theorem vsize_mem_list {v : Value} {vs : List Value} (h : v ∈ vs) :
    vsize v ≤ vsizeList vs := by
  induction vs with
  | nil => cases h
  | cons x xs ih =>
    rcases List.mem_cons.mp h with rfl | h
    · simp [vsizeList]; omega
    · have := ih h; simp [vsizeList]; omega

theorem vsize_mem_fields {k : String} {v : Value} {fs : List (String × Value)}
    (h : (k, v) ∈ fs) : 1 + vsize v ≤ vsizeFields fs := by
  induction fs with
  | nil => cases h
  | cons x xs ih =>
    rcases List.mem_cons.mp h with rfl | h
    · simp [vsizeFields]
    · have := ih h; simp [vsizeFields]; omega

end Value

open Value

/-- The `typeof` operator of JS on modeled values. -/
def jsTypeof : Value → String
  | .undef => "undefined"
  | .vnull => "object"
  | .num _ => "number"
  | .str _ => "string"
  | .bool _ => "boolean"
  | .date _ => "object"
  | .arr _ => "object"
  | .obj _ => "object"

/-- JS truthiness of a modeled value (NaN does not occur in the model). -/
def truthy : Value → Bool
  | .undef => false
  | .vnull => false
  | .num n => n ≠ 0
  | .str s => s ≠ ""
  | .bool b => b
  | .date _ => true
  | .arr _ => true
  | .obj _ => true

/-- isDate from the utils module: a Date object. -/
def isDate : Value → Bool
  | .date _ => true
  | _ => false

/-- isPrimitiveType from the utils module: booleans, numbers, strings, null,
dates and arrays count as primitive. -/
def isPrimitiveType : Value → Bool
  | .bool _ => true
  | .num _ => true
  | .str _ => true
  | .vnull => true
  | .date _ => true
  | .arr _ => true
  | _ => false

/-- isMongoId from the customUtils module tests for a bson ObjectID
constructor; such host objects are outside the value model, so the test is
always false here. -/
def isMongoId : Value → Bool := fun _ => false

/-- First occurrence lookup in an object field list (JS objects cannot have
duplicate keys, so the first occurrence is the only one). -/
def lookupField : List (String × Value) → String → Option Value
  | [], _ => none
  | (k, v) :: fs, key => if k = key then some v else lookupField fs key

/-- Canonical array index test: the strings JS uses as own array indexes
(digits, no leading zero except the string 0 itself). -/
def isCanonicalIndex (s : String) : Bool :=
  s.data ≠ [] ∧ s.data.all (·.isDigit) ∧ (s.data.length = 1 ∨ s.data.head? ≠ some '0')

/-- Array element at a (possibly out of range) integer position; out of
range reads give undefined, as JS property reads do. -/
def jsIndex (xs : List Value) (i : Int) : Value :=
  if h : 0 ≤ i ∧ i.toNat < xs.length then xs.get ⟨i.toNat, h.2⟩ else (.undef)

/-- JS property read obj[k].  Missing properties read as undefined; reads on
null and undefined throw in JS but every call site of the sources guards
with a truthiness or type test first, so the total model returns undefined
there.  Array reads only model index properties (length and other
non-index slots are never read by the embedded code paths). -/
def jsGet : Value → String → Value
  | .obj fs, k => (lookupField fs k).getD .undef
  | .arr xs, k =>
      if isCanonicalIndex k then jsIndex xs ((k.toNat?).getD 0) else .undef
  | .str s, k =>
      if isCanonicalIndex k then
        match s.data.get? ((k.toNat?).getD 0) with
        | some c => .str (String.mk [c])
        | none => .undef
      else .undef
  | _, _ => (.undef)

/-- Replace the value of the first occurrence of a key, keeping order. -/
def setFieldList : List (String × Value) → String → Value → List (String × Value)
  | [], key, x => [(key, x)]
  | (k, v) :: fs, key, x =>
      if k = key then (k, x) :: fs else (k, v) :: setFieldList fs key x

/-- JS property write obj[k] = x.  On objects: update in place or append in
insertion order.  On arrays: only index writes within bounds or directly at
the end are modeled (JS also accepts sparse writes and string-keyed slots on
arrays, which the embedded code paths never rely on).  Writes on primitives
are silently ignored in sloppy mode, and the sources run in sloppy mode. -/
def jsSet : Value → String → Value → Value
  | .obj fs, k, x => .obj (setFieldList fs k x)
  | .arr xs, k, x =>
      if isCanonicalIndex k then
        let i := (k.toNat?).getD 0
        if i < xs.length then .arr (xs.set i x)
        else if i = xs.length then .arr (xs ++ [x])
        else .arr xs
      else .arr xs
  | v, _, _ => v

/-- Object.prototype.hasOwnProperty.call(obj, k) on modeled values. -/
def hasOwnProp : Value → String → Bool
  | .obj fs, k => (lookupField fs k).isSome
  | .arr xs, k => isCanonicalIndex k ∧ ((k.toNat?).getD 0) < xs.length
  | .str s, k => isCanonicalIndex k ∧ ((k.toNat?).getD 0) < s.length
  | _, _ => false

/-- delete obj[k]: removes the first (only) occurrence of the key. -/
def jsDelete : Value → String → Value
  | .obj fs, k => .obj (fs.filter (fun f => f.1 ≠ k))
  | v, _ => v

/-- Object.keys on modeled values (returns [] on primitives; the sources
never take keys of strings on the embedded paths). -/
def objKeys : Value → List String
  | .obj fs => fs.map Prod.fst
  | .arr xs => (List.range xs.length).map (fun i => toString i)
  | .str s => (List.range s.length).map (fun i => toString i)
  | _ => []

/-- Does the key start with the dollar character (k[0] === the dollar)? -/
def startsWithDollar (k : String) : Bool := k.data.head? = some '$'

/-- checkKey from the model module (lines 26-39): true when the key is
accepted, false when checkKey throws.  Number keys are stringified by the
source before the tests; all keys reaching this model are strings already.
The date test of the serializer (value already converted by toJSON) agrees
with this one: a date value is not a number in either view. -/
def checkKeyOk (k : String) (v : Value) : Bool :=
  !(startsWithDollar k
      && !(k = "$$date" && (match v with | .num _ => true | _ => false))
      && !(k = "$$deleted" && v = Value.bool true)
      && !(k = "$$indexCreated")
      && !(k = "$$indexRemoved")
      && !(k = "$numberDecimal"))
  && !(k.data.contains '.')

mutual
/-- checkObject from the model module (lines 45-61): true when the whole
tree is accepted, false when some key at some depth makes checkKey throw. -/
def checkObjOk : Value → Bool
  | .arr xs => checkObjList xs
  | .obj fs => checkObjFields fs
  | _ => true
/-- checkObject folded over the elements of an array. -/
def checkObjList : List Value → Bool
  | [] => true
  | x :: xs => checkObjOk x && checkObjList xs
/-- checkObject folded over the fields of an object: each key is checked
and each value is recursed into. -/
def checkObjFields : List (String × Value) → Bool
  | [] => true
  | (k, v) :: fs => checkKeyOk k v && checkObjOk v && checkObjFields fs
end

mutual
/-- All key/value pairs of all objects nested anywhere in a value
(descending through arrays and through object values). -/
def keyVals : Value → List (String × Value)
  | .arr xs => keyValsList xs
  | .obj fs => keyValsFields fs
  | _ => []
/-- keyVals over the elements of an array. -/
def keyValsList : List Value → List (String × Value)
  | [] => []
  | x :: xs => keyVals x ++ keyValsList xs
/-- keyVals over the fields of an object. -/
def keyValsFields : List (String × Value) → List (String × Value)
  | [] => []
  | (k, v) :: fs => (k, v) :: (keyVals v ++ keyValsFields fs)
end

-- ==============================================================
-- Storage layer (storage module, ensureDatafileIntegrity)
-- ==============================================================

/-- A file system snapshot: path to file content, none for a missing file. -/
def FS : Type := String → Option String

/-- storage.exists: the access callback reports whether the path exists. -/
def fsExists (fs : FS) (p : String) : Bool := (fs p).isSome

/-- storage.writeFile: create or overwrite a file with the given content. -/
def fsWriteFile (fs : FS) (p : String) (data : String) : FS :=
  fun q => if q = p then some data else fs q

/-- storage.rename: the destination receives the source content, the
source disappears. -/
def fsRename (fs : FS) (src dst : String) : FS :=
  fun q => if q = dst then fs src else if q = src then none else fs q

/-- storage.ensureDatafileIntegrity (storage module lines 145-160), with the
callback chain flattened into a state transformer: keep the datafile if it
exists, otherwise recover the temp file by rename, otherwise create an
empty datafile. -/
def ensureDatafileIntegrity (fs : FS) (filename : String) : FS :=
  let tempFilename := filename ++ "~"
  if fsExists fs filename then fs
  else if !fsExists fs tempFilename then fsWriteFile fs filename ""
  else fsRename fs tempFilename filename

-- ==============================================================
-- Dotted path resolution (getDotValue, model module lines 510-527)
-- ==============================================================

/-- Numeric value of a list of decimal digits. -/
def natOfDigits (ds : List Char) : Nat :=
  ds.foldl (fun a c => a * 10 + (c.toNat - 48)) 0

/-- JS parseInt(s, 10): skip leading whitespace, optional sign, then the
longest decimal digit run; NaN (none) when no digit follows. -/
def parseIntOpt (s : String) : Option Int :=
  let cs := s.data.dropWhile (fun c => c = ' ' || c = '\t' || c = '\n' || c = '\r')
  let signed : Bool × List Char :=
    match cs with
    | '-' :: r => (true, r)
    | '+' :: r => (false, r)
    | r => (false, r)
  let ds := signed.2.takeWhile (·.isDigit)
  if ds.isEmpty then none
  else some ((if signed.1 then -1 else 1) * (natOfDigits ds : Int))

mutual
/-- getDotValue on an already split path.  Falsy roots resolve to
undefined; a one part path is a property read; when the current field
holds an array, an integer-parsing next part indexes into it, and any
other next part maps the remaining path over the elements. -/
def getDotValue (obj : Value) (fieldParts : List String) : Value :=
  if truthy obj = false then .undef
  else
    match fieldParts with
    | [] => obj
    | [f] => jsGet obj f
    | f :: k :: rest =>
        match jsGet obj f with
        | .arr xs =>
            match parseIntOpt k with
            | some i => getDotValue (jsIndex xs i) rest
            | none => .arr (getDotEach xs (k :: rest))
        | v => getDotValue v (k :: rest)
termination_by (fieldParts.length, 0)
/-- The element-wise branch of getDotValue over an array. -/
def getDotEach (xs : List Value) (fieldParts : List String) : List Value :=
  match xs with
  | [] => []
  | x :: rest => getDotValue x fieldParts :: getDotEach rest fieldParts
termination_by (fieldParts.length, xs.length + 1)
end

/-- getDotValue on a dotted path string, as the matcher calls it. -/
def getDotValueStr (obj : Value) (field : String) : Value :=
  getDotValue obj (field.splitOn ".")

-- ==============================================================
-- Errors
-- ==============================================================

/-- Exception kinds thrown by the embedded sources; one constructor per
family of throw sites. -/
inductive JsErr : Type where
  /-- checkKey: field names cannot begin with the dollar sign or contain a dot. -/
  | invalidField
  /-- modify: cannot change the document _id. -/
  | immutableId
  /-- modify: cannot mix modifiers and normal fields. -/
  | mixedModifiers
  /-- modify: unknown modifier name. -/
  | unknownModifier
  /-- modifier argument has the wrong shape (non object argument, each or
  slice misuse, non array argument to pushAll or pullAll, non number to
  inc or pop, inc on a non number field). -/
  | badModifierArg
  /-- array modifier applied to a non array target field. -/
  | notArrayTarget
  /-- a JS TypeError, e.g. Object.keys of null or undefined. -/
  | typeError
  /-- matcher errors: unknown operator, mixed operators and fields, regex,
  in, nin, size, where misuse. -/
  | invalidQuery
  /-- chai assertion failures in the positional dollar handling. -/
  | assertionFailed
  deriving Repr, DecidableEq, Inhabited

-- ==============================================================
-- Serialization (model module lines 71-101)
-- ==============================================================

/-- A JSON tree: the image of JSON.stringify and the domain of JSON.parse.
The text layer itself (printing and parsing of the native JSON format) is a
faithful bijection between these trees and one line strings and is modeled
as the identity bridge; the repository logic lives in the replacer and the
reviver, embedded below. -/
inductive JsonV : Type where
  | jnull : JsonV
  | jbool (b : Bool) : JsonV
  | jnum (n : Int) : JsonV
  | jstr (s : String) : JsonV
  | jarr (elems : List JsonV) : JsonV
  | jobj (fields : List (String × JsonV)) : JsonV
  deriving Repr, Inhabited

mutual
/-- One step of JSON.stringify with the serialize replacer applied to key k
and value v: checkKey runs first (its date edge case agrees with the raw
value view, see checkKeyOk); undefined is dropped (none); null is kept; a
date becomes the wrapper object with the dollar-dollar-date key holding its
epoch milliseconds (stringify then recurses over that wrapper: its single
key passes checkKey with a number value and is emitted as is); arrays and
objects recurse, with undefined elements printed as null inside arrays and
undefined fields skipped inside objects. -/
def serValue (k : String) (v : Value) : Except JsErr (Option JsonV) := do
  if checkKeyOk k v = false then throw .invalidField
  match v with
  | .undef => pure none
  | .vnull => pure (some .jnull)
  | .num n => pure (some (.jnum n))
  | .str s => pure (some (.jstr s))
  | .bool b => pure (some (.jbool b))
  | .date t => pure (some (.jobj [("$$date", .jnum t)]))
  | .arr xs => do
      let js ← serArr 0 xs
      pure (some (.jarr js))
  | .obj fs => do
      let js ← serObj fs
      pure (some (.jobj js))
termination_by vsize v
/-- Stringify the elements of an array (keys are the decimal indexes). -/
def serArr (i : Nat) (xs : List Value) : Except JsErr (List JsonV) :=
  match xs with
  | [] => pure []
  | x :: rest => do
      let o ← serValue (toString i) x
      let tail ← serArr (i + 1) rest
      pure (o.getD .jnull :: tail)
termination_by vsizeList xs + 1
/-- Stringify the fields of an object, skipping undefined results. -/
def serObj (fs : List (String × Value)) : Except JsErr (List (String × JsonV)) :=
  match fs with
  | [] => pure []
  | (k, v) :: rest => do
      let o ← serValue k v
      let tail ← serObj rest
      pure (match o with | some j => (k, j) :: tail | none => tail)
termination_by vsizeFields fs + 1
end

/-- serialize: JSON.stringify of a document with the replacer; the top
level call carries the empty key, which always passes checkKey.  The
result is none exactly when the whole document is undefined (stringify
then returns no string at all). -/
def serialize (v : Value) : Except JsErr (Option JsonV) := serValue "" v

/-- new Date(v) as invoked by the deserialize reviver on the value stored
under the dollar-dollar-date key.  Serializer output always stores a
number there; null and booleans coerce through their numeric value, and
host date string parsing (never produced by the serializer) is outside the
model and collapses to epoch zero. -/
def jsNewDate : Value → Value
  | .num n => .date n
  | .vnull => .date 0
  | .bool b => .date (if b then 1 else 0)
  | _ => .date 0

/-- First occurrence lookup on JsonV fields. -/
def lookupJField : List (String × JsonV) → String → Option JsonV
  | [], _ => none
  | (k, v) :: fs, key => if k = key then some v else lookupJField fs key

mutual
/-- JSON.parse with the deserialize reviver, applied bottom up: primitives
pass through; the value under a dollar-dollar-date key becomes a date; an
object that then holds a truthy dollar-dollar-date property collapses to
that property value. -/
def deserValue : JsonV → Value
  | .jnull => .vnull
  | .jbool b => .bool b
  | .jnum n => .num n
  | .jstr s => .str s
  | .jarr xs => .arr (deserList xs)
  | .jobj fs =>
      let fs' := deserFields fs
      match lookupField fs' "$$date" with
      | some dv => if truthy dv then dv else .obj fs'
      | none => .obj fs'
/-- The reviver over the elements of an array. -/
def deserList : List JsonV → List Value
  | [] => []
  | x :: xs => deserValue x :: deserList xs
/-- The reviver over the fields of an object: the field keyed by the
dollar-dollar-date key is turned into a date. -/
def deserFields : List (String × JsonV) → List (String × Value)
  | [] => []
  | (k, j) :: fs =>
      (k, if k = "$$date" then jsNewDate (deserValue j) else deserValue j)
        :: deserFields fs
end

/-- deserialize: parse one line back into a value. -/
def deserialize (j : JsonV) : Value := deserValue j

-- ==============================================================
-- deepCopy (model module lines 108-134)
-- ==============================================================

mutual
/-- deepCopy: primitives, null and dates are returned as they are, arrays
and objects are rebuilt; with strictKeys, fields whose key starts with the
dollar sign or contains a dot are dropped.  The trailing catch-all of the
source (anything else copies to undefined) is the undefined case here. -/
def deepCopy (v : Value) (strictKeys : Bool) : Value :=
  match v with
  | .bool b => .bool b
  | .num n => .num n
  | .str s => .str s
  | .vnull => .vnull
  | .date t => .date t
  | .arr xs => .arr (deepCopyList xs strictKeys)
  | .obj fs => .obj (deepCopyFields fs strictKeys)
  | .undef => (.undef)
/-- deepCopy over array elements. -/
def deepCopyList (xs : List Value) (strictKeys : Bool) : List Value :=
  match xs with
  | [] => []
  | x :: rest => deepCopy x strictKeys :: deepCopyList rest strictKeys
/-- deepCopy over object fields, dropping reserved keys when strict. -/
def deepCopyFields (fs : List (String × Value)) (strictKeys : Bool) :
    List (String × Value) :=
  match fs with
  | [] => []
  | (k, v) :: rest =>
      if !strictKeys || (!startsWithDollar k && !(k.data.contains '.')) then
        (k, deepCopy v strictKeys) :: deepCopyFields rest strictKeys
      else deepCopyFields rest strictKeys
end

-- ==============================================================
-- Ordering (compareThings, model module lines 141-216)
-- ==============================================================

/-- compareNSB on numbers. -/
def compareNSBInt (a b : Int) : Int := if a < b then -1 else if b < a then 1 else 0

/-- compareNSB on strings (default string comparator; the optional custom
comparator of the datastore is not installed in this model). -/
def compareNSBStr (a b : String) : Int := if a < b then -1 else if b < a then 1 else 0

/-- compareNSB on booleans (JS relational coercion: false before true). -/
def compareNSBBool (a b : Bool) : Int :=
  compareNSBInt (if a then 1 else 0) (if b then 1 else 0)

/-- Insert a key into a sorted key list (ascending). -/
def insertKey (k : String) : List String → List String
  | [] => [k]
  | x :: xs => if k ≤ x then k :: x :: xs else x :: insertKey k xs

/-- Array.prototype.sort on a list of (unique) string keys. -/
def sortKeys : List String → List String
  | [] => []
  | x :: xs => insertKey x (sortKeys xs)

theorem lookupField_mem {fs : List (String × Value)} {k : String} {v : Value}
    (h : lookupField fs k = some v) : (k, v) ∈ fs := by
  induction fs with
  | nil => simp [lookupField] at h
  | cons f rest ih =>
    obtain ⟨k0, v0⟩ := f
    by_cases hk : k0 = k
    · subst hk
      simp [lookupField] at h
      simp [h]
    · simp [lookupField, hk] at h
      exact List.mem_cons_of_mem _ (ih h)

theorem vsize_lookup_le {fs : List (String × Value)} (k : String) :
    vsize ((lookupField fs k).getD .undef) ≤ vsizeFields fs + 1 := by
  cases h : lookupField fs k with
  | none => simp only [Option.getD_none, vsize]; omega
  | some v =>
    have := vsize_mem_fields (lookupField_mem h)
    simp only [Option.getD_some]
    omega

mutual
/-- compareThings with the default string comparator: the total order over
values.  Undefined sorts first, then null, numbers, strings, booleans,
dates, arrays and finally plain objects; same type values compare by value
(arrays lexicographically, objects by sorted key order then key count).
The bson ObjectID conversion never fires on modeled values. -/
def compareThings (a b : Value) : Int :=
  match a, b with
  | .undef, .undef => 0
  | .undef, _ => -1
  | _, .undef => 1
  | .vnull, .vnull => 0
  | .vnull, _ => -1
  | _, .vnull => 1
  | .num x, .num y => compareNSBInt x y
  | .num _, _ => -1
  | _, .num _ => 1
  | .str x, .str y => compareNSBStr x y
  | .str _, _ => -1
  | _, .str _ => 1
  | .bool x, .bool y => compareNSBBool x y
  | .bool _, _ => -1
  | _, .bool _ => 1
  | .date x, .date y => compareNSBInt x y
  | .date _, _ => -1
  | _, .date _ => 1
  | .arr xs, .arr ys => compareArraysList xs ys
  | .arr _, _ => -1
  | _, .arr _ => 1
  | .obj fsa, .obj fsb =>
      compareSortedKeys (sortKeys (fsa.map Prod.fst)) (sortKeys (fsb.map Prod.fst))
        fsa fsb
termination_by (vsize a + vsize b, 0)
/-- compareArrays: compare the common prefix element-wise, then the longer
array wins (the base cases are exactly compareNSB on the lengths once the
common prefix is consumed). -/
def compareArraysList (xs ys : List Value) : Int :=
  match xs, ys with
  | [], [] => 0
  | [], _ :: _ => -1
  | _ :: _, [] => 1
  | x :: xr, y :: yr =>
      let c := compareThings x y
      if c ≠ 0 then c else compareArraysList xr yr
termination_by (vsizeList xs + vsizeList ys + 1, 0)
/-- The object branch of compareThings: walk both sorted key lists in
parallel comparing the field values, then the object with more keys wins
(the base cases are compareNSB on the key counts). -/
def compareSortedKeys (akeys bkeys : List String)
    (fa fb : List (String × Value)) : Int :=
  match akeys, bkeys with
  | [], [] => 0
  | [], _ :: _ => -1
  | _ :: _, [] => 1
  | ka :: kas, kb :: kbs =>
      let c := compareThings ((lookupField fa ka).getD .undef)
        ((lookupField fb kb).getD .undef)
      if c ≠ 0 then c else compareSortedKeys kas kbs fa fb
termination_by (vsizeFields fa + vsizeFields fb + 3, akeys.length)
decreasing_by
  · have h1 := @vsize_lookup_le fa ka
    have h2 := @vsize_lookup_le fb kb
    apply Prod.Lex.left
    omega
  · apply Prod.Lex.right
    simp
end

-- ==============================================================
-- Deep equality (areThingsEqual, model module lines 571-615)
-- ==============================================================

/-- Is the value null, a string, a boolean or a number (the first test of
areThingsEqual)? -/
def isNSBN : Value → Bool
  | .vnull | .str _ | .bool _ | .num _ => true
  | _ => false

/-- Array.isArray. -/
def isArr : Value → Bool
  | .arr _ => true
  | _ => false

/-- Is the value an array or a plain object? -/
def isContainer : Value → Bool
  | .arr _ | .obj _ => true
  | _ => false

theorem jsIndex_lt (xs : List Value) (i : Int) :
    vsize (jsIndex xs i) < 2 + vsizeList xs := by
  rw [jsIndex]
  split
  · next h2 =>
    have := vsize_mem_list (List.get_mem xs _ h2.2)
    omega
  · simp only [vsize]; omega

theorem jsGet_lt_of_container {a : Value} (h : isContainer a = true)
    (k : String) : vsize (jsGet a k) < vsize a := by
  cases a with
  | arr xs =>
    simp only [jsGet]
    split
    · have := jsIndex_lt xs (((k.toNat?).getD 0 : Nat) : Int)
      simp only [vsize]
      omega
    · simp only [vsize]; omega
  | obj fs =>
    simp only [jsGet]
    cases h2 : lookupField fs k with
    | none => simp only [Option.getD_none, vsize]; omega
    | some v =>
      have := vsize_mem_fields (lookupField_mem h2)
      simp only [Option.getD_some, vsize]
      omega
  | _ => simp [isContainer] at h

theorem jsGet_le (a : Value) (k : String) : vsize (jsGet a k) ≤ vsize a := by
  cases a with
  | arr xs => exact Nat.le_of_lt (@jsGet_lt_of_container (.arr xs) rfl k)
  | obj fs => exact Nat.le_of_lt (@jsGet_lt_of_container (.obj fs) rfl k)
  | str s =>
    simp only [jsGet]
    split
    · split <;> simp [vsize]
    · simp [vsize]
  | _ => simp [jsGet, vsize]

mutual
/-- areThingsEqual: deep equality as used by query matching.  Null,
strings, booleans and numbers compare by strict equality against anything;
dates compare by epoch value; an array only equals another array; the
undefined value equals nothing; arrays and objects compare by their key
sets and key-wise recursion.  After the first three tests only arrays and
objects remain, so the catch-all false branches of the container split are
unreachable. -/
def areThingsEqual (a b : Value) : Bool :=
  if isNSBN a || isNSBN b then decide (a = b)
  else if isDate a || isDate b then
    match a, b with
    | .date x, .date y => decide (x = y)
    | _, _ => false
  else if (!(isArr a && isArr b) && (isArr a || isArr b))
      || a = .undef || b = .undef then false
  else
    if ha : isContainer a then
      if hb : isContainer b then
        if (objKeys a).length = (objKeys b).length then
          eqAllKeys a b (objKeys a) (objKeys b) ha hb
        else false
      else false
    else false
termination_by (vsize a + vsize b, 1, 0)
/-- The key loop of areThingsEqual: every key of a must be a key of b and
the two property values must be deeply equal. -/
def eqAllKeys (a b : Value) (akeys bkeys : List String)
    (ha : isContainer a = true) (hb : isContainer b = true) : Bool :=
  match akeys with
  | [] => true
  | k :: ks =>
      bkeys.contains k && areThingsEqual (jsGet a k) (jsGet b k)
        && eqAllKeys a b ks bkeys ha hb
termination_by (vsize a + vsize b, 0, akeys.length)
decreasing_by
  all_goals simp_wf
  all_goals first
    | (apply Prod.Lex.right; apply Prod.Lex.right; simp)
    | (apply Prod.Lex.left
       have h1 := jsGet_lt_of_container ha x
       have h2 := jsGet_lt_of_container hb x
       omega)
end

-- ==============================================================
-- Comparability and relational operators (lines 620-646)
-- ==============================================================

/-- areComparable: both sides must be strings, numbers or dates of the same
typeof.  A date paired with another object-typed value (null, array, plain
object) slips through the typeof test, exactly as in the source. -/
def areComparable (a b : Value) : Bool :=
  if !(jsTypeof a = "string") && !(jsTypeof a = "number") && !isDate a
      && !(jsTypeof b = "string") && !(jsTypeof b = "number") && !isDate b
  then false
  else if !(jsTypeof a = jsTypeof b) then false
  else true

/-- Number(s) for a string: the empty or blank string is zero, optionally
signed digit strings are decimal, anything else is NaN (none).  Fractional,
hexadecimal and exponent literals are outside the integer model; no string
reaching the embedded relational operators uses them. -/
def strToNumberOpt (s : String) : Option Int :=
  let t := (s.data.dropWhile (fun c => c = ' ' || c = '\t' || c = '\n' || c = '\r')).reverse
  let t := (t.dropWhile (fun c => c = ' ' || c = '\t' || c = '\n' || c = '\r')).reverse
  if t = [] then some 0
  else
    match t with
    | '-' :: ds => if ds ≠ [] && ds.all (·.isDigit) then some (-(natOfDigits ds : Int)) else none
    | '+' :: ds => if ds ≠ [] && ds.all (·.isDigit) then some ((natOfDigits ds : Int)) else none
    | ds => if ds.all (·.isDigit) then some ((natOfDigits ds : Int)) else none

mutual
/-- ToNumber of a whole array (via its joined string form): the empty
array is zero, a one element array coerces its element, any other array
prints with a comma and is NaN. -/
def arrToNumberOpt : List Value → Option Int
  | [] => some 0
  | [x] => elemToNumberOpt x
  | _ => none
/-- ToNumber of a single array element through string printing: null and
undefined print as the empty string (zero), numbers as themselves, strings
as themselves, nested arrays recurse; booleans, dates and objects print as
non numeric words. -/
def elemToNumberOpt : Value → Option Int
  | .vnull => some 0
  | .undef => some 0
  | .num n => some n
  | .str s => strToNumberOpt s
  | .bool _ => none
  | .date _ => none
  | .arr xs => arrToNumberOpt xs
  | .obj _ => none
end

/-- JS ToNumber of the number-hinted primitive of a value (none is NaN).
This is host coercion behavior, reachable from the relational operators
only for the pairs areComparable lets through. -/
def toNumberOpt : Value → Option Int
  | .undef => none
  | .vnull => some 0
  | .num n => some n
  | .bool b => some (if b then 1 else 0)
  | .str s => strToNumberOpt s
  | .date t => some t
  | .arr xs => arrToNumberOpt xs
  | .obj _ => none

/-- The JS relational a < b: both-string operands compare lexicographically,
anything else compares through ToNumber, with NaN making it false. -/
def jsLess (a b : Value) : Bool :=
  match a, b with
  | .str x, .str y => decide (x < y)
  | _, _ =>
      match toNumberOpt a, toNumberOpt b with
      | some x, some y => decide (x < y)
      | _, _ => false

/-- The JS relational a <= b (not the negation of the reverse: NaN makes
both false). -/
def jsLessEq (a b : Value) : Bool :=
  match a, b with
  | .str x, .str y => decide (x ≤ y)
  | _, _ =>
      match toNumberOpt a, toNumberOpt b with
      | some x, some y => decide (x ≤ y)
      | _, _ => false

/-- comparisonFunctions for the four relational operators: comparability
check, then the JS relational on the raw values. -/
def compLt (a b : Value) : Bool := areComparable a b && jsLess a b

/-- See compLt. -/
def compLte (a b : Value) : Bool := areComparable a b && jsLessEq a b

/-- See compLt. -/
def compGt (a b : Value) : Bool := areComparable a b && jsLess b a

/-- See compLt. -/
def compGte (a b : Value) : Bool := areComparable a b && jsLessEq b a

/-- comparisonFunctions for the not-equal operator: true on an absent
field; an array field with a non array operand must have no element deeply
equal to the operand; otherwise plain deep inequality. -/
def compNe (a b : Value) : Bool :=
  if a = .undef then true
  else
    match a, b with
    | .arr xs, b =>
        if !isArr b then !(xs.any (fun el => areThingsEqual el b))
        else !areThingsEqual (.arr xs) b
    | a, b => !areThingsEqual a b

/-- comparisonFunctions for the membership operator: throws unless the
operand is an array, then deep equality against any member. -/
def compIn (a b : Value) : Except JsErr Bool :=
  match b with
  | .arr xs => pure (xs.any (fun el => areThingsEqual a el))
  | _ => throw .invalidQuery

/-- comparisonFunctions for the exists operator: a truthy (or empty
string) operand asks for a defined field, anything else for an absent
field. -/
def compExists (a b : Value) : Bool :=
  if truthy b || b = .str "" then a ≠ .undef else a = (.undef)

/-- comparisonFunctions for the size operator: false on non arrays; the
operand must be an (integral) number, otherwise the operator throws; all
modeled numbers are integral. -/
def compSize (a b : Value) : Except JsErr Bool :=
  match a with
  | .arr xs =>
      match b with
      | .num n => pure (decide ((xs.length : Int) = n))
      | _ => throw .invalidQuery
  | _ => pure false

theorem jsGet_eq_arr_container {obj : Value} {f : String} {ys : List Value}
    (h : jsGet obj f = .arr ys) : isContainer obj = true := by
  cases obj with
  | arr xs => rfl
  | obj fs => rfl
  | str s =>
    exfalso
    simp only [jsGet] at h
    split at h
    · split at h <;> simp at h
    · simp at h
  | _ => simp [jsGet] at h

/-- Size of a dotted path resolution never exceeds the size of the root. -/
theorem getDot_le : ∀ (obj : Value) (parts : List String),
    vsize (getDotValue obj parts) ≤ vsize obj := by
  refine getDotValue.induct
    (fun obj parts => vsize (getDotValue obj parts) ≤ vsize obj)
    (fun xs parts => vsizeList (getDotEach xs parts) ≤ vsizeList xs)
    ?_ ?_ ?_ ?_ ?_ ?_ ?_ ?_
  · intro obj parts h
    rw [getDotValue.eq_def, if_pos h]
    exact vsize_pos obj
  · intro obj h
    rw [getDotValue.eq_def, if_neg h]
  · intro obj h f
    rw [getDotValue.eq_def, if_neg h]
    exact jsGet_le obj f
  · intro obj htr f k rest xs hjs i hpi ih
    rw [getDotValue.eq_def, if_neg htr]
    simp only [hjs, hpi]
    have h1 := jsIndex_lt xs i
    have h2 := jsGet_le obj f
    rw [hjs] at h2
    simp only [vsize] at h2
    omega
  · intro obj htr f k rest xs hjs hpi ih
    rw [getDotValue.eq_def, if_neg htr]
    simp only [hjs, hpi]
    have h2 := jsGet_le obj f
    rw [hjs] at h2
    simp only [vsize] at h2 ⊢
    omega
  · intro obj htr f k rest hnot ih
    rw [getDotValue.eq_def, if_neg htr]
    have hle := jsGet_le obj f
    cases hjs : jsGet obj f
    case arr ys => exact (hnot ys hjs).elim
    all_goals (rw [hjs] at ih hle; simp only [hjs]; omega)
  · intro parts
    simp [getDotEach]
  · intro parts v vs ih1 ih2
    simp only [getDotEach, vsizeList]
    omega

/-- Element-wise resolution never grows the total size of an array. -/
theorem getDotEach_le (xs : List Value) (parts : List String) :
    vsizeList (getDotEach xs parts) ≤ vsizeList xs := by
  induction xs with
  | nil => simp [getDotEach]
  | cons x rest ih =>
    have := getDot_le x parts
    simp only [getDotEach, vsizeList]
    omega

/-- When a non-empty dotted path resolves to an array, that array is
strictly smaller than the root (used for matcher termination: the root is
at least an enclosing field or array slot away). -/
theorem getDot_arr_lt : ∀ (obj : Value) (parts : List String),
    parts ≠ [] → ∀ xs, getDotValue obj parts = .arr xs →
    2 + vsizeList xs < vsize obj := by
  refine getDotValue.induct
    (fun obj parts => parts ≠ [] → ∀ xs, getDotValue obj parts = .arr xs →
      2 + vsizeList xs < vsize obj)
    (fun _ _ => True)
    ?_ ?_ ?_ ?_ ?_ ?_ ?_ ?_
  · intro obj parts h hne xs hres
    rw [getDotValue.eq_def, if_pos h] at hres
    exact absurd hres (by simp)
  · intro obj h hne
    exact absurd rfl hne
  · intro obj h f hne xs hres
    rw [getDotValue.eq_def, if_neg h] at hres
    have hres2 : jsGet obj f = .arr xs := hres
    have hcont := jsGet_eq_arr_container hres2
    have := jsGet_lt_of_container hcont f
    rw [hres2] at this
    simpa [vsize] using this
  · intro obj htr f k rest ys hjs i hpi ih hne xs hres
    rw [getDotValue.eq_def, if_neg htr] at hres
    simp only [hjs, hpi] at hres
    have hidx := jsIndex_lt ys i
    have hstrict := jsGet_lt_of_container (jsGet_eq_arr_container hjs) f
    rw [hjs] at hstrict
    simp only [vsize] at hstrict
    by_cases hr : rest = []
    · subst hr
      rw [getDotValue.eq_def] at hres
      split at hres
      · exact absurd hres (by simp)
      · have hres2 : jsIndex ys i = .arr xs := hres
        rw [hres2] at hidx
        simp only [vsize] at hidx
        omega
    · have := ih hr xs hres
      omega
  · intro obj htr f k rest ys hjs hpi ih hne xs hres
    rw [getDotValue.eq_def, if_neg htr] at hres
    simp only [hjs, hpi] at hres
    have heach := getDotEach_le ys (k :: rest)
    have hstrict := jsGet_lt_of_container (jsGet_eq_arr_container hjs) f
    rw [hjs] at hstrict
    simp only [vsize] at hstrict
    have hxs : getDotEach ys (k :: rest) = xs := by simpa using hres
    rw [hxs] at heach
    omega
  · intro obj htr f k rest hnot ih hne xs hres
    rw [getDotValue.eq_def, if_neg htr] at hres
    have hle := jsGet_le obj f
    cases hjs : jsGet obj f
    case arr ys => exact (hnot ys hjs).elim
    all_goals
      (simp only [hjs] at hres
       rw [hjs] at ih hle
       have := ih (by simp) xs hres
       omega)
  · intro parts; trivial
  · intro parts v vs ih1 ih2; trivial


-- ==============================================================
-- The matcher (match, matchQueryPart, logical and comparison
-- operators; model module lines 640-862)
-- ==============================================================

/-- Host regular expression semantics, kept abstract: valid says whether
the RegExp construction from a pattern and a flags value succeeds, test
runs the compiled expression on a subject string.  The repository
delegates both to the host engine, so every theorem quantifies over
them. -/
structure RegexSem where
  valid : Value → Value → Bool
  test : Value → Value → String → Bool

/-- Property read that throws a TypeError on null and undefined exactly as
JS does; used for the one unguarded property read of the matcher (the
dollar-eq probe on the query side of an array-valued field). -/
def jsGetE (v : Value) (k : String) : Except JsErr Value :=
  match v with
  | .vnull => throw .typeError
  | .undef => throw .typeError
  | v => pure (jsGet v k)

/-- The keys registered in arrayComparisonFunctions. -/
def isArrayComparison (k : String) : Bool :=
  k = "$size" || k = "$elemMatch" || k = "$ne"

/-- The final fallback of matchQueryPart: an undefined field matches a
null query value, otherwise basic deep equality decides.  (A regular
expression query value cannot occur in the value model.) -/
def basicTail (ov qv : Value) : Bool :=
  if ov = .undef ∧ qv = .vnull then true else areThingsEqual ov qv

/-- Lexicographic step for the two component termination measures. -/
theorem lex2_lt {a1 b1 a2 b2 : Nat}
    (h : a1 < a2 ∨ (a1 = a2 ∧ b1 < b2)) :
    @Prod.Lex Nat Nat (· < ·) (· < ·) (a1, b1) (a2, b2) := by
  rcases h with h | ⟨he, h⟩
  · exact Prod.Lex.left _ _ h
  · subst he
    exact Prod.Lex.right _ h

mutual
/-- match: a primitive document or a primitive query is wrapped under a
scratch key and matched as one query part; otherwise every entry of the
query object must hold: operator keys dispatch to the logical operators,
the rest are field expressions.  A non-object non-primitive query (only
the undefined value) iterates zero entries and matches. -/
def matchM (rxo : RegexSem) (obj query : Value) : Except JsErr Bool :=
  if isPrimitiveType obj || isPrimitiveType query then
    matchQueryPart rxo (.obj [("needAKey", obj)]) "needAKey" query false
  else
    match query with
    | .obj qfs => matchFields rxo obj qfs
    | _ => pure true
termination_by (vsize query, 4 * vsize obj + 16)
decreasing_by
  all_goals simp_wf
  all_goals apply lex2_lt
  all_goals omega

/-- The entry loop of match over the query fields. -/
def matchFields (rxo : RegexSem) (obj : Value)
    (qfs : List (String × Value)) : Except JsErr Bool :=
  match qfs with
  | [] => pure true
  | (qk, qv) :: rest => do
      let r ← if startsWithDollar qk then applyLogical rxo obj qk qv
        else matchQueryPart rxo obj qk qv false
      if r then matchFields rxo obj rest else pure false
termination_by (2 + vsizeFields qfs, 4 * vsize obj + 15)
decreasing_by
  all_goals simp_wf
  all_goals apply lex2_lt
  all_goals omega

/-- logicalOperators dispatch: or and and take arrays of subqueries, not
inverts a subquery.  The where operator compiles host code from strings
and a modeled Value is never a function, so it is the error the source
raises for non-function arguments (a string argument would run
host-compiled code, outside the document model).  Unknown operators
throw. -/
def applyLogical (rxo : RegexSem) (obj : Value) (op : String)
    (qv : Value) : Except JsErr Bool :=
  if op = "$or" then
    match qv with
    | .arr qs => anySubquery rxo obj qs
    | _ => throw .invalidQuery
  else if op = "$and" then
    match qv with
    | .arr qs => allSubquery rxo obj qs
    | _ => throw .invalidQuery
  else if op = "$not" then do
    let r ← matchM rxo obj qv
    pure (!r)
  else if op = "$where" then throw .invalidQuery
  else throw .invalidQuery
termination_by (vsize qv + 1, 0)
decreasing_by
  all_goals simp_wf
  all_goals apply lex2_lt
  all_goals omega

/-- The or loop: at least one subquery must match. -/
def anySubquery (rxo : RegexSem) (obj : Value) (qs : List Value) :
    Except JsErr Bool :=
  match qs with
  | [] => pure false
  | q :: rest => do
      let r ← matchM rxo obj q
      if r then pure true else anySubquery rxo obj rest
termination_by (vsizeList qs + 1, 0)
decreasing_by
  all_goals simp_wf
  all_goals apply lex2_lt
  all_goals omega

/-- The and loop: all subqueries must match. -/
def allSubquery (rxo : RegexSem) (obj : Value) (qs : List Value) :
    Except JsErr Bool :=
  match qs with
  | [] => pure true
  | q :: rest => do
      let r ← matchM rxo obj q
      if r then allSubquery rxo obj rest else pure false
termination_by (vsizeList qs + 1, 0)
decreasing_by
  all_goals simp_wf
  all_goals apply lex2_lt
  all_goals omega

/-- matchQueryPart: resolve the dotted key (the split of a string on the
dot is never empty, so the nil branch is unreachable); an array field
value without the whole-array flag diverts to whole-array treatment when
the query side is an array, carries a dollar-eq key, or carries an
array-specific operator, and otherwise matches element-wise; the
whole-array and non-array cases are the value part below. -/
def matchQueryPart (rxo : RegexSem) (obj : Value) (queryKey : String)
    (queryValue : Value) (treatObjAsValue : Bool) : Except JsErr Bool :=
  match queryKey.splitOn "." with
  | [] => pure false
  | p0 :: prest =>
      matchQPonV rxo obj queryKey queryValue treatObjAsValue
        (getDotValue obj (p0 :: prest))
        (fun xs hxs => getDot_arr_lt obj (p0 :: prest) (by simp) xs hxs)
termination_by
  (vsize queryValue,
    4 * vsize obj + (if treatObjAsValue then 0 else 2) + 1)
decreasing_by
  simp_wf
  apply lex2_lt
  omega

/-- The dispatch of matchQueryPart on the resolved field value (passed
with the size bound that getDotValue guarantees, which powers the
termination of the element-wise branch). -/
def matchQPonV (rxo : RegexSem) (obj : Value) (queryKey : String)
    (queryValue : Value) (t : Bool) (ov : Value)
    (hlt : ∀ xs, ov = Value.arr xs → 2 + vsizeList xs < vsize obj) :
    Except JsErr Bool :=
  match hov : ov, t with
  | .arr xs, false =>
      if isArr queryValue then
        matchQueryPart rxo obj queryKey queryValue true
      else do
        let e ← jsGetE queryValue "$eq"
        if e ≠ .undef then
          matchQueryPart rxo obj queryKey queryValue true
        else
          match hqv : queryValue with
          | .obj qfs =>
              if qfs.any (fun f => isArrayComparison f.1) then
                matchQueryPart rxo obj queryKey queryValue true
              else anyElement rxo xs queryValue
          | _ => anyElement rxo xs queryValue
  | ov2, _ => matchPartValue rxo ov2 queryValue
termination_by (vsize queryValue, 4 * vsize obj + (if t then 0 else 2))
decreasing_by
  all_goals simp_wf
  all_goals apply lex2_lt
  all_goals try rw [hqv]
  all_goals try simp
  all_goals
    first
    | omega
    | (have h1 := hlt xs rfl
       omega)
    | (have h2 := vsize_pos obj
       first
       | omega
       | (split <;> omega))

/-- The whole-array and plain value part of matchQueryPart: the regex pair
special case on a map query, the rejection of mixed operator and plain
keys, the operator loop when every key is an operator, and basic deep
equality otherwise. -/
def matchPartValue (rxo : RegexSem) (ov : Value) (queryValue : Value) :
    Except JsErr Bool :=
  match queryValue with
  | .obj qfs =>
      if (qfs.map Prod.fst).contains "$regex"
          && (qfs.map Prod.fst).contains "$options" then
        if rxo.valid (jsGet queryValue "$regex")
            (jsGet queryValue "$options") then
          match ov with
          | .str s => pure (rxo.test (jsGet queryValue "$regex")
              (jsGet queryValue "$options") s)
          | _ => pure false
        else throw .invalidQuery
      else
        let keys := qfs.map Prod.fst
        let dollarCount := (keys.filter startsWithDollar).length
        if dollarCount ≠ 0 && dollarCount ≠ keys.length then
          throw .invalidQuery
        else if dollarCount > 0 then opLoop rxo ov qfs
        else pure (basicTail ov queryValue)
  | _ => pure (basicTail ov queryValue)
termination_by (vsize queryValue, 1)
decreasing_by
  simp_wf
  apply lex2_lt
  omega

/-- The element-wise existential over an array-valued field: each element
is wrapped under a scratch key and matched against the query part. -/
def anyElement (rxo : RegexSem) (xs : List Value) (qv : Value) :
    Except JsErr Bool :=
  match xs with
  | [] => pure false
  | el :: rest => do
      let r ← matchQueryPart rxo (.obj [("k", el)]) "k" qv false
      if r then pure true else anyElement rxo rest qv
termination_by (vsize qv, 4 * (2 + vsizeList xs) + 4)
decreasing_by
  all_goals simp_wf
  all_goals apply lex2_lt
  all_goals omega

/-- The operator loop of matchQueryPart: every operator entry must hold;
unknown operator names throw.  (JS object keys are unique, so iterating
the keys and reading each back equals iterating the entries.) -/
def opLoop (rxo : RegexSem) (objValue : Value)
    (qfs : List (String × Value)) : Except JsErr Bool :=
  match qfs with
  | [] => pure true
  | (op, v) :: rest => do
      let r ← applyComparison rxo op objValue v
      if r then opLoop rxo objValue rest else pure false
termination_by (2 + vsizeFields qfs, 0)
decreasing_by
  all_goals simp_wf
  all_goals apply lex2_lt
  all_goals omega

/-- comparisonFunctions dispatch (the unknown-name throw of the caller is
folded into the catch-all).  The regex operator rejects non strings,
fails construction as the source does, and tests strings only. -/
def applyComparison (rxo : RegexSem) (op : String) (a v : Value) :
    Except JsErr Bool :=
  if op = "$lt" then pure (compLt a v)
  else if op = "$lte" then pure (compLte a v)
  else if op = "$gt" then pure (compGt a v)
  else if op = "$gte" then pure (compGte a v)
  else if op = "$ne" then pure (compNe a v)
  else if op = "$eq" then pure (areThingsEqual a v)
  else if op = "$in" then compIn a v
  else if op = "$nin" then
    match v with
    | .arr ys => pure (!(ys.any (fun el => areThingsEqual a el)))
    | _ => throw .invalidQuery
  else if op = "$regex" then
    match v with
    | .str s =>
        if rxo.valid (.str s) .undef then
          match a with
          | .str sa => pure (rxo.test (.str s) .undef sa)
          | _ => pure false
        else throw .invalidQuery
    | _ => throw .invalidQuery
  else if op = "$exists" then pure (compExists a v)
  else if op = "$size" then compSize a v
  else if op = "$elemMatch" then
    match a with
    | .arr xs => anyElemMatch rxo xs v
    | _ => pure false
  else throw .invalidQuery
termination_by (vsize v + 1, 4 * vsize a + 17)
decreasing_by
  all_goals simp_wf
  all_goals apply lex2_lt
  all_goals omega

/-- The elemMatch existential: at least one element matches the
subquery. -/
def anyElemMatch (rxo : RegexSem) (xs : List Value) (v : Value) :
    Except JsErr Bool :=
  match xs with
  | [] => pure false
  | x :: rest => do
      let r ← matchM rxo x v
      if r then pure true else anyElemMatch rxo rest v
termination_by (vsize v + 1, vsizeList xs)
decreasing_by
  all_goals simp_wf
  all_goals apply lex2_lt
  all_goals omega
end


-- ==============================================================
-- Update modifiers (lastStepModifierFunctions, model module lines
-- 234-386)
-- ==============================================================

/-- Object.keys with the JS TypeError on null and undefined. -/
def objKeysE (v : Value) : Except JsErr (List String) :=
  match v with
  | .vnull => throw .typeError
  | .undef => throw .typeError
  | v => pure (objKeys v)

/-- uniq from the utils module (a Set keeps first occurrences in
insertion order). -/
def uniqFirst (xs : List String) : List String :=
  xs.foldl (fun acc x => if acc.contains x then acc else acc ++ [x]) []

/-- The registered last step modifier names. -/
def knownModifier (m : String) : Bool :=
  m = "$set" || m = "$unset" || m = "$push" || m = "$pushAll"
    || m = "$addToSet" || m = "$pop" || m = "$pull" || m = "$pullAll"
    || m = "$inc" || m = "$max" || m = "$min"

/-- The set modifier: assign the field. -/
def lastSet (obj : Value) (field : String) (value : Value) : Except JsErr Value :=
  pure (jsSet obj field value)

/-- The unset modifier: delete the field (array holes from deleting a
numeric slot are not modeled; the embedded paths never do that). -/
def lastUnset (obj : Value) (field : String) (_value : Value) : Except JsErr Value :=
  pure (jsDelete obj field)

/-- The push modifier.  A missing field is created as an empty array, a
non array target throws.  A slice without an each gains an empty each on
the update query object (that mutation of the caller value is local
here); an object value with a truthy each pushes its elements after shape
checks and then applies an integer slice (zero clears, positive keeps the
prefix, negative the suffix); any other value is pushed whole. -/
def lastPush (obj : Value) (field : String) (value : Value) : Except JsErr Value := do
  let obj1 := if hasOwnProp obj field then obj else jsSet obj field (.arr [])
  match jsGet obj1 field with
  | .arr cur =>
      let value1 :=
        match value with
        | .obj _ =>
            if truthy (jsGet value "$slice") ∧ jsGet value "$each" = Value.undef then
              jsSet value "$each" (.arr [])
            else value
        | _ => value
      match value1 with
      | .obj vfs =>
          if truthy (jsGet value1 "$each") then
            if vfs.length ≥ 3 ∨ (vfs.length = 2 ∧ jsGet value1 "$slice" = Value.undef) then
              throw .badModifierArg
            else
              match jsGet value1 "$each" with
              | .arr eachXs =>
                  let cur1 := cur ++ eachXs
                  match jsGet value1 "$slice" with
                  | .num sl =>
                      if sl = 0 then pure (jsSet obj1 field (.arr []))
                      else if sl < 0 then
                        pure (jsSet obj1 field
                          (.arr (cur1.drop (((cur1.length : Int) + sl).toNat))))
                      else pure (jsSet obj1 field (.arr (cur1.take sl.toNat)))
                  | _ => pure (jsSet obj1 field (.arr cur1))
              | _ => throw .badModifierArg
          else pure (jsSet obj1 field (.arr (cur ++ [value1])))
      | _ => pure (jsSet obj1 field (.arr (cur ++ [value1])))
  | _ => throw .notArrayTarget

/-- The pushAll modifier: a non array argument throws, otherwise it is a
push with an each wrapper. -/
def lastPushAll (obj : Value) (field : String) (values : Value) : Except JsErr Value :=
  match values with
  | .arr _ => lastPush obj field (.obj [("$each", values)])
  | _ => throw .badModifierArg

mutual
/-- The addToSet modifier: a missing field is created as an empty array, a
non array target throws; an object value with a truthy each recurses over
its elements (after the single-key check), any other value is appended
unless some current element is equal under compareThings. -/
def lastAddToSet (obj : Value) (field : String) (value : Value) : Except JsErr Value :=
  let obj1 := if hasOwnProp obj field then obj else jsSet obj field (.arr [])
  match jsGet obj1 field with
  | .arr cur =>
      if hc : (jsTypeof value = "object" ∧ value ≠ Value.vnull)
          ∧ truthy (jsGet value "$each") then
        if (objKeys value).length > 1 then throw .badModifierArg
        else
          match he : jsGet value "$each" with
          | .arr eachXs => addToSetEach obj1 field eachXs
          | _ => throw .badModifierArg
      else
        if cur.any (fun v => compareThings v value = 0) then pure obj1
        else pure (jsSet obj1 field (.arr (cur ++ [value])))
  | _ => throw .notArrayTarget
termination_by (vsize value, 0)
decreasing_by
  apply Prod.Lex.left
  have hcont : isContainer value = true := by
    obtain ⟨⟨ht, hn⟩, htr⟩ := hc
    cases value <;> simp_all [jsTypeof, jsGet, truthy, isContainer]
  have h1 := jsGet_lt_of_container hcont "$each"
  rw [he] at h1
  simp only [vsize] at h1
  omega
/-- The each loop of addToSet, threading the evolving target. -/
def addToSetEach (obj : Value) (field : String) (vs : List Value) : Except JsErr Value :=
  match vs with
  | [] => pure obj
  | v :: rest => do
      let obj1 ← lastAddToSet obj field v
      addToSetEach obj1 field rest
termination_by (vsizeList vs, 1)
decreasing_by
  · apply Prod.Lex.left
    simp only [vsizeList]
    have := vsize_pos v
    omega
  · apply Prod.Lex.left
    simp only [vsizeList]
    have := vsize_pos v
    omega
end

/-- The pop modifier: positive drops the last element, negative the
first, zero is a no-op; non array targets and non number arguments
throw. -/
def lastPop (obj : Value) (field : String) (value : Value) : Except JsErr Value :=
  match jsGet obj field with
  | .arr cur =>
      match value with
      | .num n =>
          if n = 0 then pure obj
          else if 0 < n then pure (jsSet obj field (.arr (cur.take (cur.length - 1))))
          else pure (jsSet obj field (.arr (cur.drop 1)))
      | _ => throw .badModifierArg
  | _ => throw .notArrayTarget

/-- The backwards removal scan of the pull modifier: higher indexes are
tested first, exactly as the in-place splice loop of the source; the kept
elements stay in order. -/
def pullScan (rxo : RegexSem) (value : Value) (xs : List Value) :
    Except JsErr (List Value) :=
  match xs with
  | [] => pure []
  | x :: rest => do
      let tail ← pullScan rxo value rest
      let m ← matchM rxo x value
      pure (if m then tail else x :: tail)

/-- The pull modifier: remove every element matching the sub-query. -/
def lastPull (rxo : RegexSem) (obj : Value) (field : String) (value : Value) :
    Except JsErr Value :=
  match jsGet obj field with
  | .arr cur => do
      let keep ← pullScan rxo value cur
      pure (jsSet obj field (.arr keep))
  | _ => throw .notArrayTarget

/-- values.some(value => match(e, value)) with the JS short-circuit. -/
def someMatchE (rxo : RegexSem) (e : Value) (vs : List Value) :
    Except JsErr Bool :=
  match vs with
  | [] => pure false
  | v :: rest => do
      let m ← matchM rxo e v
      if m then pure true else someMatchE rxo e rest

/-- arr.filter(e => !values.some(value => match(e, value))). -/
def filterNotMatchedE (rxo : RegexSem) (values : List Value) (xs : List Value) :
    Except JsErr (List Value) :=
  match xs with
  | [] => pure []
  | e :: rest => do
      let m ← someMatchE rxo e values
      let tail ← filterNotMatchedE rxo values rest
      pure (if m then tail else e :: tail)

/-- The pullAll modifier: non array target or argument throws; the field
keeps exactly the elements that match no member of the given array (the
matching is the query match, evaluated with the some short-circuit). -/
def lastPullAll (rxo : RegexSem) (obj : Value) (field : String)
    (values : Value) : Except JsErr Value :=
  match jsGet obj field with
  | .arr cur =>
      match values with
      | .arr vs => do
          let keep ← filterNotMatchedE rxo vs cur
          pure (jsSet obj field (.arr keep))
      | _ => throw .badModifierArg
  | _ => throw .notArrayTarget

/-- The inc modifier: the argument must be a number; a missing field is
initialized to it, a number field is increased, anything else throws. -/
def lastInc (obj : Value) (field : String) (value : Value) : Except JsErr Value :=
  match value with
  | .num n =>
      match jsGet obj field with
      | .num m0 => pure (jsSet obj field (.num (m0 + n)))
      | .undef => pure (jsSet obj field value)
      | _ => throw .badModifierArg
  | _ => throw .badModifierArg

/-- The max modifier: initialize a missing field, otherwise assign when
the new value is greater under the JS relational. -/
def lastMax (obj : Value) (field : String) (value : Value) : Except JsErr Value :=
  if jsGet obj field = .undef then pure (jsSet obj field value)
  else if jsLess (jsGet obj field) value then pure (jsSet obj field value)
  else pure obj

/-- The min modifier: initialize a missing field, otherwise assign when
the new value is smaller under the JS relational. -/
def lastMin (obj : Value) (field : String) (value : Value) : Except JsErr Value :=
  if jsGet obj field = .undef then pure (jsSet obj field value)
  else if jsLess value (jsGet obj field) then pure (jsSet obj field value)
  else pure obj

/-- lastStepModifierFunctions dispatch by name (callers only pass
registered names; the catch-all mirrors the unknown modifier error). -/
def applyLastStep (rxo : RegexSem) (m : String) (obj : Value)
    (field : String) (value : Value) : Except JsErr Value :=
  if m = "$set" then lastSet obj field value
  else if m = "$unset" then lastUnset obj field value
  else if m = "$push" then lastPush obj field value
  else if m = "$pushAll" then lastPushAll obj field value
  else if m = "$addToSet" then lastAddToSet obj field value
  else if m = "$pop" then lastPop obj field value
  else if m = "$pull" then lastPull rxo obj field value
  else if m = "$pullAll" then lastPullAll rxo obj field value
  else if m = "$inc" then lastInc obj field value
  else if m = "$max" then lastMax obj field value
  else if m = "$min" then lastMin obj field value
  else throw .unknownModifier


-- ==============================================================
-- modify (model module lines 389-499): dot-path modifier application,
-- the positional dollar machinery, and the update entry point
-- ==============================================================

/-- Array.prototype.lastIndexOf on a list of strings. -/
def lastIdxOf (xs : List String) (s : String) : Option Nat :=
  match List.indexOf? s xs.reverse with
  | some i => some (xs.length - 1 - i)
  | none => none

/-- Rank of the optional positional query (used for termination: the
recursive modify of the positional filter runs without a query). -/
@[simp] def rankO : Option Value → Nat
  | none => 0
  | some _ => 1

theorem length_le_vsizeList (xs : List Value) : xs.length ≤ vsizeList xs := by
  induction xs with
  | nil => simp
  | cons x rest ih =>
    have := vsize_pos x
    simp only [List.length_cons, vsizeList]
    omega

mutual
/-- modify: Object.keys of the update (throwing on null and undefined),
the immutable-id check, the no-mixing check, then either wholesale
replacement (deep copy of the update with the id restored from the
document) or modifier application over a deep copy of the document; the
result must pass checkObject and keep the id.  The mongoose conversion is
a no-op (the host global flag is unset in this model). -/
def modify (rxo : RegexSem) (obj updateQuery : Value) (query : Option Value) :
    Except JsErr Value := do
  let keys ← objKeysE updateQuery
  let dollarCount := (keys.filter startsWithDollar).length
  if keys.contains "_id" ∧ jsGet updateQuery "_id" ≠ jsGet obj "_id" then
    throw .immutableId
  if dollarCount ≠ 0 ∧ dollarCount ≠ keys.length then throw .mixedModifiers
  let newDoc ←
    if dollarCount = 0 then
      pure (jsSet (deepCopy updateQuery false) "_id" (jsGet obj "_id"))
    else
      modLoop rxo updateQuery query (deepCopy obj false) (uniqFirst keys)
  if checkObjOk newDoc = false then throw .invalidField
  if jsGet obj "_id" ≠ jsGet newDoc "_id" then throw .immutableId
  pure newDoc
termination_by (rankO query, 3, 0, 0)

/-- The loop of modify over the (unique) modifier names. -/
def modLoop (rxo : RegexSem) (u : Value) (query : Option Value)
    (newDoc : Value) (ms : List String) : Except JsErr Value :=
  match ms with
  | [] => pure newDoc
  | m :: rest => do
      if knownModifier m = false then throw .unknownModifier
      if jsTypeof (jsGet u m) ≠ "object" then throw .badModifierArg
      let ks ← objKeysE (jsGet u m)
      let newDoc1 ← keyLoop rxo m (jsGet u m) query newDoc ks
      modLoop rxo u query newDoc1 rest
termination_by (rankO query, 2, ms.length, 0)

/-- The loop of modify over the field descriptors of one modifier. -/
def keyLoop (rxo : RegexSem) (m : String) (inner : Value)
    (query : Option Value) (newDoc : Value) (ks : List String) :
    Except JsErr Value :=
  match ks with
  | [] => pure newDoc
  | k :: rest => do
      let newDoc1 ← modApply rxo m newDoc (k.splitOn ".") (jsGet inner k) query
      keyLoop rxo m inner query newDoc1 rest
termination_by (rankO query, 1, ks.length, 0)

/-- createModifierFunction: on an array target whose first path part does
not parse as a number, every element is visited; otherwise the helper
descends.  (Dotted splits are never empty; the nil branch is
unreachable.) -/
def modApply (rxo : RegexSem) (m : String) (obj : Value)
    (parts : List String) (value : Value) (query : Option Value) :
    Except JsErr Value :=
  match parts with
  | [] => throw .badModifierArg
  | p0 :: prest =>
      match hob : obj, parseIntOpt p0 with
      | .arr xs, none => do
          let xs1 ← modEachEl rxo m [] xs p0 prest value query
          pure (.arr xs1)
      | _, _ =>
          match prest with
          | [] => applyLastStep rxo m obj p0 value
          | p1 :: prest2 => modHelper rxo m obj obj p0 p1 prest2 value query
termination_by (rankO query, 0, parts.length, vsize obj + 2)
decreasing_by
  all_goals simp_wf
  · apply Prod.Lex.right
    apply Prod.Lex.right
    apply Prod.Lex.right
    have := length_le_vsizeList xs
    omega
  · apply Prod.Lex.right
    apply Prod.Lex.right
    apply Prod.Lex.right
    have := vsize_pos obj
    omega

/-- obj.forEach(helper): visit each element, threading the evolving array
(the whole array is what the positional machinery resolves against; the
model passes its state as of each element visit). -/
def modEachEl (rxo : RegexSem) (m : String) (done xs : List Value)
    (p0 : String) (prest : List String) (value : Value)
    (query : Option Value) : Except JsErr (List Value) :=
  match xs with
  | [] => pure done
  | x :: rest => do
      let x1 ←
        match prest with
        | [] => applyLastStep rxo m x p0 value
        | p1 :: prest2 =>
            modHelper rxo m (.arr (done ++ x :: rest)) x p0 p1 prest2 value query
      modEachEl rxo m (done ++ [x1]) rest p0 prest value query
termination_by (rankO query, 0, prest.length + 1, xs.length + 1)

/-- The helper of createModifierFunction: one path part left applies the
last step modifier; otherwise intermediate objects are created (except
under unset, which stops), and either the plain descent or the positional
dollar machinery continues.  The positional branch: exactly one dollar,
not in first position; the indexes of the array at the path prefix whose
single-element replacement satisfies the query receive the modifier; with
no matching index the dollar parts are dropped from the remaining path. -/
def modHelper (rxo : RegexSem) (m : String) (objTop el : Value)
    (p0 p1 : String) (prest2 : List String) (value : Value)
    (query : Option Value) : Except JsErr Value :=
    if jsGet el p0 = Value.undef ∧ m = "$unset" then pure el
    else
      let el1 := if jsGet el p0 = Value.undef then jsSet el p0 (.obj []) else el
      match query with
      | none => do
          let child ← modApply rxo m (jsGet el1 p0) (p1 :: prest2) value none
          pure (jsSet el1 p0 child)
      | some q =>
        match List.indexOf? "$" (p0 :: p1 :: prest2) with
        | none => do
          let child ← modApply rxo m (jsGet el1 p0) (p1 :: prest2) value none
          pure (jsSet el1 p0 child)
        | some di => do
          if lastIdxOf (p0 :: p1 :: prest2) "$" ≠ some di then
            throw .assertionFailed
          if di = 0 then throw .assertionFailed
          let arrayPath := String.intercalate "." ((p0 :: p1 :: prest2).take di)
          let array := getDotValue objTop (arrayPath.splitOn ".")
          let n := match array with | .arr axs => axs.length | _ => 0
          let idxs ← filterIdx rxo objTop arrayPath array q (List.range n)
          if idxs.isEmpty then do
            let child ← modApply rxo m (jsGet el1 p0)
              ((p1 :: prest2).filter (fun e => e ≠ "$")) value none
            pure (jsSet el1 p0 child)
          else foldIdxs rxo m el1 (p0 :: p1 :: prest2) di idxs value
termination_by (rankO query, 0, prest2.length + 2, 1)

/-- The positional filter: an index i is kept when the document with the
array at the path replaced by the single element at i matches the query
(via a query-less modify with a set descriptor). -/
def filterIdx (rxo : RegexSem) (objTop : Value) (arrayPath : String)
    (array : Value) (q : Value) (is' : List Nat) : Except JsErr (List Nat) :=
  match is' with
  | [] => pure []
  | i :: rest => do
      let el := match array with | .arr axs => jsIndex axs (i : Int) | _ => Value.undef
      let nd ← modify rxo objTop
        (.obj [("$set", .obj [(arrayPath, .arr [el])])]) none
      let ok ← matchM rxo nd q
      let tail ← filterIdx rxo objTop arrayPath array q rest
      pure (if ok then i :: tail else tail)
termination_by (0, 4, is'.length, 0)

/-- The per-index application over the matched positional indexes: the
dollar part is replaced by the index and the modifier descends, threading
the evolving element. -/
def foldIdxs (rxo : RegexSem) (m : String) (el : Value)
    (fieldParts : List String) (di : Nat) (idxs : List Nat)
    (value : Value) : Except JsErr Value :=
  match idxs with
  | [] => pure el
  | i :: rest => do
      let tfp := fieldParts.set di (toString i)
      let f0 := tfp.headD ""
      let child ← modApply rxo m (jsGet el f0) tfp.tail value none
      foldIdxs rxo m (jsSet el f0 child) fieldParts di rest value
termination_by (0, 1, idxs.length, 0)
end


-- ==============================================================
-- Claim theorems
-- ==============================================================

/-- Position of the type of a value in the documented cross-type
hierarchy: undefined, null, number, string, boolean, date, array, map. -/
def typeIdx : Value → Nat
  | .undef => 0
  | .vnull => 1
  | .num _ => 2
  | .str _ => 3
  | .bool _ => 4
  | .date _ => 5
  | .arr _ => 6
  | .obj _ => 7

/-- C3: compareThings realizes the cross-type hierarchy undefined < null
< number < string < boolean < date < array < map: for values of different
types, the result is negative exactly when the type of the first operand
precedes the type of the second in the hierarchy, and positive exactly
when it follows it. -/
theorem C3_compareThings_cross_type (a b : Value) (h : typeIdx a ≠ typeIdx b) :
    (compareThings a b < 0 ↔ typeIdx a < typeIdx b) ∧
    (0 < compareThings a b ↔ typeIdx b < typeIdx a) := by
  cases a <;> cases b <;>
    first
    | exact absurd rfl h
    | (constructor <;> simp [compareThings, typeIdx])

/-- C3 witness: null precedes numbers. -/
theorem C3_compareThings_cross_type_witness :
    compareThings Value.vnull (Value.num 3) < 0 :=
  (C3_compareThings_cross_type Value.vnull (Value.num 3) (by decide)).1.mpr
    (by decide)

/-- A value of one of the three comparable types (string, number or
date). -/
def comparableType (v : Value) : Bool :=
  jsTypeof v = "string" || jsTypeof v = "number" || isDate v

/-- C8 (amended): the four relational operators return false whenever the
two operands have different JS typeof values, and whenever neither
operand is a string, a number or a date; in particular on every pair in
which no comparable type occurs at all.  (The claim as frozen also
covered a date paired with null, an array or a map; those pairs pass
areComparable, because typeof puts them all at object, and fall through
to coercive comparison — see the counterexample.) -/
theorem C8_comparison_type_mismatch (a b : Value)
    (h : jsTypeof a ≠ jsTypeof b ∨ (comparableType a = false ∧ comparableType b = false)) :
    compLt a b = false ∧ compLte a b = false ∧
    compGt a b = false ∧ compGte a b = false := by
  have hac : areComparable a b = false := by
    rw [areComparable]
    rcases h with h | ⟨h1, h2⟩
    · by_cases hfirst : (!decide (jsTypeof a = "string") && !decide (jsTypeof a = "number")
          && !isDate a && !decide (jsTypeof b = "string")
          && !decide (jsTypeof b = "number") && !isDate b) = true
      · rw [if_pos hfirst]
      · rw [if_neg hfirst, if_pos]
        simp [h]
    · simp only [comparableType, Bool.or_eq_false_iff] at h1 h2
      rw [if_pos]
      simp [h1.1.1, h1.1.2, h1.2, h2.1.1, h2.1.2, h2.2]
  refine ⟨?_, ?_, ?_, ?_⟩ <;> simp [compLt, compLte, compGt, compGte, hac]

/-- C8 witness: a boolean and a map have different typeof values and both
operators stay false. -/
theorem C8_comparison_type_mismatch_witness :
    compLt (Value.bool true) (Value.obj []) = false ∧
    compLte (Value.bool true) (Value.obj []) = false ∧
    compGt (Value.bool true) (Value.obj []) = false ∧
    compGte (Value.bool true) (Value.obj []) = false :=
  C8_comparison_type_mismatch (Value.bool true) (Value.obj []) (by decide)

/-- C8 counterexample: the pair (date 5, null) is not two strings, not
two numbers and not two dates, yet the greater-than operator returns
true on it (areComparable lets the pair through because typeof puts both
at object, and the coercive relational compares epoch 5 against 0). -/
theorem C8_counterexample :
    isDate Value.vnull = false ∧ jsTypeof Value.vnull ≠ "number" ∧
    jsTypeof Value.vnull ≠ "string" ∧
    compGt (Value.date 5) Value.vnull = true := by
  refine ⟨rfl, by decide, by decide, ?_⟩
  rfl

/-- C7: on open, ensureDatafileIntegrity performs exactly one of three
cases — an existing datafile is left untouched (the file system is
unchanged); otherwise an existing temp file is renamed onto it, so the
datafile afterwards holds the former temp content and the temp file is
gone; otherwise an empty datafile is created.  The datafile exists
afterwards in every case. -/
theorem C7_ensure_datafile_integrity (fs : FS) (F : String) :
    (fsExists fs F = true → ensureDatafileIntegrity fs F = fs) ∧
    (fsExists fs F = false → fsExists fs (F ++ "~") = true →
      ensureDatafileIntegrity fs F = fsRename fs (F ++ "~") F ∧
      ensureDatafileIntegrity fs F F = fs (F ++ "~") ∧
      ensureDatafileIntegrity fs F (F ++ "~") = none) ∧
    (fsExists fs F = false → fsExists fs (F ++ "~") = false →
      ensureDatafileIntegrity fs F = fsWriteFile fs F "") ∧
    fsExists (ensureDatafileIntegrity fs F) F = true := by
  have hne : F ++ "~" ≠ F := by
    intro h
    have h2 := congrArg String.length h
    rw [String.length_append] at h2
    have h3 : "~".length = 1 := rfl
    omega
  refine ⟨?_, ?_, ?_, ?_⟩
  · intro h
    rw [ensureDatafileIntegrity, if_pos h]
  · intro h1 h2
    rw [ensureDatafileIntegrity, if_neg (by simp [h1]), if_neg (by simp [h2])]
    refine ⟨rfl, ?_, ?_⟩
    · rw [fsRename, if_pos rfl]
    · rw [fsRename, if_neg hne, if_pos rfl]
  · intro h1 h2
    rw [ensureDatafileIntegrity, if_neg (by simp [h1]), if_pos (by simp [h2])]
  · rw [ensureDatafileIntegrity]
    split
    · next h => exact h
    · split
      · next h1 h2 =>
        simp only [fsExists, fsWriteFile, if_pos rfl]
        rfl
      · next h1 h2 =>
        simp only [fsExists, fsRename, if_pos rfl]
        simp only [fsExists] at h2
        revert h2
        cases fs (F ++ "~") <;> simp

/-- C7 witness: with the datafile absent and the temp file present, the
reopened datafile holds the former temp content. -/
theorem C7_ensure_datafile_integrity_witness :
    ensureDatafileIntegrity
      (fun p => if p = "d~" then some "x" else none) "d" "d" = some "x" := by
  have h := (C7_ensure_datafile_integrity
    (fun p => if p = "d~" then some "x" else none) "d").2.1
    (by decide) (by decide)
  rw [h.2.1]
  decide

/-- C10: in dotted resolution on an object whose field f holds an array,
a next component that parses as an integer continues at the single
element at that index with the rest of the path, while a non parsing next
component resolves the remaining path over every element and returns the
array of results. -/
theorem C10_get_dot_value_array (fields : List (String × Value))
    (f k : String) (rest : List String) (xs : List Value)
    (hf : jsGet (Value.obj fields) f = .arr xs) :
    (∀ i, parseIntOpt k = some i →
      getDotValue (Value.obj fields) (f :: k :: rest) =
        getDotValue (jsIndex xs i) rest) ∧
    (parseIntOpt k = none →
      getDotValue (Value.obj fields) (f :: k :: rest) =
        .arr (xs.map (fun el => getDotValue el (k :: rest)))) := by
  have heach : ∀ ys : List Value, getDotEach ys (k :: rest) =
      ys.map (fun el => getDotValue el (k :: rest)) := by
    intro ys
    induction ys with
    | nil => rw [getDotEach]; rfl
    | cons y t ih => rw [getDotEach, ih]; rfl
  constructor
  · intro i hi
    rw [getDotValue.eq_def, if_neg (by simp [truthy])]
    simp only [hf, hi]
  · intro hi
    rw [getDotValue.eq_def, if_neg (by simp [truthy])]
    simp only [hf, hi, heach]

/-- C10 witness: the integer component picks one element, a field
component fans out. -/
theorem C10_get_dot_value_array_witness :
    getDotValue
      (Value.obj [("a", .arr [.obj [("g", .num 1)], .obj [("g", .num 2)]])])
      ["a", "1", "g"]
      = getDotValue (jsIndex [.obj [("g", .num 1)], .obj [("g", .num 2)]] 1) ["g"] :=
  (C10_get_dot_value_array
    [("a", .arr [.obj [("g", .num 1)], .obj [("g", .num 2)]])]
    "a" "1" ["g"] [.obj [("g", .num 1)], .obj [("g", .num 2)]]
    (by decide)).1 1 (by decide)


/-- Modelled from the frozen claim text: a key is reserved when it begins
with the dollar character — other than the encoded forms
dollar-dollar-date with a number value, dollar-dollar-deleted with true,
and the index created and removed markers — or contains a dot. -/
def specBadKeyOrig (k : String) (v : Value) : Bool :=
  (startsWithDollar k
      && !(k = "$$date" && (match v with | .num _ => true | _ => false))
      && !(k = "$$deleted" && v = Value.bool true)
      && !(k = "$$indexCreated")
      && !(k = "$$indexRemoved"))
    || k.data.contains '.'

/-- The claim predicate amended by the one extra exception the code
grants: a numberDecimal key with any value is also accepted. -/
def specBadKey (k : String) (v : Value) : Bool :=
  (startsWithDollar k
      && !(k = "$$date" && (match v with | .num _ => true | _ => false))
      && !(k = "$$deleted" && v = Value.bool true)
      && !(k = "$$indexCreated")
      && !(k = "$$indexRemoved")
      && !(k = "$numberDecimal"))
    || k.data.contains '.'

theorem checkKeyOk_eq (k : String) (v : Value) :
    checkKeyOk k v = !(specBadKey k v) := by
  rw [checkKeyOk.eq_def, specBadKey.eq_def, Bool.not_or]

theorem checkKeyOk_iff (k : String) (v : Value) :
    checkKeyOk k v = false ↔ specBadKey k v = true := by
  rw [checkKeyOk_eq]
  cases specBadKey k v <;> simp

theorem checkObjOk_iff_keys (d : Value) :
    checkObjOk d = true ↔ ∀ p ∈ keyVals d, checkKeyOk p.1 p.2 = true := by
  refine checkObjOk.induct
    (fun d => checkObjOk d = true ↔ ∀ p ∈ keyVals d, checkKeyOk p.1 p.2 = true)
    (fun fs => checkObjFields fs = true ↔
      ∀ p ∈ keyValsFields fs, checkKeyOk p.1 p.2 = true)
    (fun xs => checkObjList xs = true ↔
      ∀ p ∈ keyValsList xs, checkKeyOk p.1 p.2 = true)
    ?_ ?_ ?_ ?_ ?_ ?_ ?_ d
  · intro xs ih
    rw [checkObjOk, keyVals]
    exact ih
  · intro fs ih
    rw [checkObjOk, keyVals]
    exact ih
  · intro v h1 h2
    rw [checkObjOk.eq_def, keyVals.eq_def]
    match v, h1, h2 with
    | .undef, _, _ => simp
    | .vnull, _, _ => simp
    | .num n, _, _ => simp
    | .str s, _, _ => simp
    | .bool b, _, _ => simp
    | .date t, _, _ => simp
    | .arr xs, h1, _ => exact (h1 xs rfl).elim
    | .obj fs, _, h2 => exact (h2 fs rfl).elim
  · simp [checkObjList, keyValsList]
  · intro x xs ih1 ih2
    simp only [checkObjList, keyValsList, Bool.and_eq_true, ih1, ih2,
      List.mem_append]
    constructor
    · rintro ⟨ha, hb⟩ p hp
      rcases hp with hp | hp
      · exact ha p hp
      · exact hb p hp
    · intro h
      exact ⟨fun p hp => h p (Or.inl hp), fun p hp => h p (Or.inr hp)⟩
  · simp [checkObjFields, keyValsFields]
  · intro k v fs ih1 ih2
    simp only [checkObjFields, keyValsFields, Bool.and_eq_true, ih1, ih2,
      List.mem_cons, List.mem_append]
    constructor
    · rintro ⟨⟨hk, hv⟩, hf⟩ p hp
      rcases hp with rfl | hp | hp
      · exact hk
      · exact hv p hp
      · exact hf p hp
    · intro h
      exact ⟨⟨h (k, v) (Or.inl rfl), fun p hp => h p (Or.inr (Or.inl hp))⟩,
        fun p hp => h p (Or.inr (Or.inr hp))⟩

/-- C6 (amended): checkObject rejects a document precisely when some key
at some nesting depth — descending through arrays and object values — is
reserved: it begins with the dollar character and is none of the encoded
forms (dollar-dollar-date with a number value, dollar-dollar-deleted with
true, the index created and removed markers, and — the amendment —
numberDecimal with any value), or it contains a dot. -/
theorem C6_check_object_iff (d : Value) :
    checkObjOk d = false ↔ ∃ p ∈ keyVals d, specBadKey p.1 p.2 = true := by
  rw [← Bool.not_eq_true, checkObjOk_iff_keys]
  push_neg
  constructor
  · rintro ⟨p, hp, hbad⟩
    exact ⟨p, hp, (checkKeyOk_iff p.1 p.2).mp (by simpa using hbad)⟩
  · rintro ⟨p, hp, hbad⟩
    exact ⟨p, hp, by simp [(checkKeyOk_iff p.1 p.2).mpr hbad]⟩

/-- C6 counterexample: the frozen claim says a numberDecimal key (it
begins with the dollar character and is none of the four listed encoded
forms) must throw, yet checkObject accepts the document. -/
theorem C6_counterexample :
    specBadKeyOrig "$numberDecimal" Value.vnull = true ∧
    checkObjOk (Value.obj [("$numberDecimal", Value.vnull)]) = true := by
  constructor
  · decide
  · decide

-- ==============================================================
-- C1: the serialize/deserialize round trip
-- ==============================================================

/-- Duplicate-free key list test (a JS object never repeats a key, so only
association lists with distinct keys denote real documents). -/
def noDupKeys : List String → Bool
  | [] => true
  | k :: ks => !(ks.contains k) && noDupKeys ks

mutual
/-- Valid documents in the sense of the round-trip claim: leaves are
numbers, strings, booleans, null or dates; interior nodes are arrays or
maps whose keys are non-reserved (no leading dollar sign, no dot) and
pairwise distinct; undefined never occurs. -/
def validDoc : Value → Bool
  | .undef => false
  | .vnull => true
  | .num _ => true
  | .str _ => true
  | .bool _ => true
  | .date _ => true
  | .arr xs => validDocList xs
  | .obj fs => noDupKeys (fs.map Prod.fst) && validDocFields fs
/-- validDoc over the elements of an array. -/
def validDocList : List Value → Bool
  | [] => true
  | x :: xs => validDoc x && validDocList xs
/-- validDoc over the fields of a map: every key is non-reserved. -/
def validDocFields : List (String × Value) → Bool
  | [] => true
  | (k, v) :: fs =>
      !startsWithDollar k && !(k.data.contains '.') && validDoc v
        && validDocFields fs
end

/-- bind on a success value of the error monad reduces. -/
theorem ok_bind {α β : Type} (a : α) (f : α → Except JsErr β) :
    (Except.ok a : Except JsErr α) >>= f = f a := rfl

/-- bind on a thrown error propagates the error. -/
theorem error_bind {α β : Type} (e : JsErr) (f : α → Except JsErr β) :
    (Except.error e : Except JsErr α) >>= f = Except.error e := rfl

/-- pure of the error monad is the success constructor. -/
theorem except_pure {α : Type} (a : α) :
    (pure a : Except JsErr α) = Except.ok a := rfl

/-- Every base-10 digit character produced by digitChar is a digit. -/
theorem digitChar_isDigit (n : Nat) (h : n < 10) :
    (Nat.digitChar n).isDigit = true := by
  interval_cases n <;> decide

/-- The characters accumulated by the base-10 digit printer are digits. -/
theorem toDigitsCore_digits (fuel : Nat) :
    ∀ (n : Nat) (ds : List Char), (∀ c ∈ ds, c.isDigit = true) →
      ∀ c ∈ Nat.toDigitsCore 10 fuel n ds, c.isDigit = true := by
  induction fuel with
  | zero => intro n ds hds; simpa [Nat.toDigitsCore] using hds
  | succ f ih =>
      intro n ds hds
      have hstep : ∀ c ∈ (Nat.digitChar (n % 10)) :: ds, c.isDigit = true := by
        intro c hc
        rcases List.mem_cons.mp hc with h | h
        · subst h; exact digitChar_isDigit _ (Nat.mod_lt _ (by omega))
        · exact hds c h
      intro c hc
      simp only [Nat.toDigitsCore] at hc
      split at hc
      · exact hstep c hc
      · exact ih _ _ hstep c hc

/-- The decimal string of a natural number is all digits. -/
theorem natToString_digits (n : Nat) :
    ∀ c ∈ (toString n).data, c.isDigit = true := by
  have he : (toString n).data = Nat.toDigitsCore 10 (n + 1) n [] := rfl
  rw [he]
  exact toDigitsCore_digits (n + 1) n []
    (fun c hc => absurd hc (List.not_mem_nil c))

/-- A key with no leading dollar sign and no dot passes checkKey whatever
the value is. -/
theorem checkKeyOk_plain {k : String} (h1 : startsWithDollar k = false)
    (h2 : ('.' : Char) ∉ k.data) (v : Value) : checkKeyOk k v = true := by
  simp [checkKeyOk, h1, h2]

/-- An all-digit key passes checkKey. -/
theorem checkKeyOk_digits {k : String} (hk : ∀ c ∈ k.data, c.isDigit = true)
    (v : Value) : checkKeyOk k v = true := by
  have h1 : startsWithDollar k = false := by
    cases hd : k.data with
    | nil => simp [startsWithDollar, hd]
    | cons c cs =>
        have hc : c.isDigit = true :=
          hk c (by rw [hd]; exact List.mem_cons_self c cs)
        have hne : c ≠ '$' := by
          intro he; rw [he] at hc; exact absurd hc (by decide)
        simp [startsWithDollar, hd, hne]
  have h2 : ('.' : Char) ∉ k.data := fun hm => absurd (hk _ hm) (by decide)
  exact checkKeyOk_plain h1 h2 v

/-- Array indexes, stringified by JSON.stringify, always pass checkKey. -/
theorem checkKeyOk_natKey (i : Nat) (v : Value) :
    checkKeyOk (toString i) v = true :=
  checkKeyOk_digits (natToString_digits i) v

/-- A key without a leading dollar sign is not the date wrapper key. -/
theorem ne_dollardate_of_plain {k : String} (h1 : startsWithDollar k = false) :
    k ≠ "$$date" := by
  intro he; rw [he] at h1; exact absurd h1 (by decide)

/-- Valid fields never hold the date wrapper key, so the reviver lookup
misses. -/
theorem validDocFields_no_date_key {fs : List (String × Value)}
    (h : validDocFields fs = true) : lookupField fs "$$date" = none := by
  induction fs with
  | nil => rfl
  | cons p rest ih =>
      obtain ⟨k, v⟩ := p
      simp only [validDocFields, Bool.and_eq_true, Bool.not_eq_true'] at h
      obtain ⟨⟨⟨hswd, _⟩, _⟩, hrest⟩ := h
      simp only [lookupField]
      rw [if_neg (ne_dollardate_of_plain hswd), ih hrest]

/-- Round-trip workhorse, by the recursion of the serializer: any valid
value under a key that passes checkKey serializes successfully and its
JSON image revives to the original value. -/
theorem serialize_roundtrip_aux :
    ∀ (k : String) (v : Value), validDoc v = true → checkKeyOk k v = true →
      ∃ j, serValue k v = .ok (some j) ∧ deserValue j = v := by
  refine serValue.induct
    (fun k v => validDoc v = true → checkKeyOk k v = true →
      ∃ j, serValue k v = .ok (some j) ∧ deserValue j = v)
    (fun fs => validDocFields fs = true →
      ∃ jfs, serObj fs = .ok jfs ∧ deserFields jfs = fs)
    (fun i xs => validDocList xs = true →
      ∃ js, serArr i xs = .ok js ∧ deserList js = xs)
    ?_ ?_ ?_ ?_ ?_ ?_
  · intro k v hck _ hval hck2
    rw [hck2] at hck
    exact absurd hck (by decide)
  · intro k v hck ihm hval hck2
    cases v with
    | undef => exact absurd hval (by decide)
    | vnull =>
        refine ⟨.jnull, ?_, rfl⟩
        rw [serValue.eq_def, if_neg hck]
        rfl
    | num n =>
        refine ⟨.jnum n, ?_, rfl⟩
        rw [serValue.eq_def, if_neg hck]
        rfl
    | str s =>
        refine ⟨.jstr s, ?_, rfl⟩
        rw [serValue.eq_def, if_neg hck]
        rfl
    | bool b =>
        refine ⟨.jbool b, ?_, rfl⟩
        rw [serValue.eq_def, if_neg hck]
        rfl
    | date t =>
        refine ⟨.jobj [("$$date", .jnum t)], ?_, rfl⟩
        rw [serValue.eq_def, if_neg hck]
        rfl
    | arr xs =>
        have hl : validDocList xs = true := by
          simpa [validDoc] using hval
        obtain ⟨js, hser, hdes⟩ := ihm hl
        refine ⟨.jarr js, ?_, ?_⟩
        · simp [serValue.eq_def, hck, hser, except_pure, ok_bind]
        · show Value.arr (deserList js) = Value.arr xs
          rw [hdes]
    | obj fs =>
        have hf : validDocFields fs = true := by
          simp only [validDoc, Bool.and_eq_true] at hval
          exact hval.2
        obtain ⟨jfs, hser, hdes⟩ := ihm hf
        refine ⟨.jobj jfs, ?_, ?_⟩
        · simp [serValue.eq_def, hck, hser, except_pure, ok_bind]
        · simp only [deserValue, hdes, validDocFields_no_date_key hf]
  · intro _
    exact ⟨[], by rw [serObj.eq_def]; rfl, rfl⟩
  · intro k v fs ih1 ih2 hval
    simp only [validDocFields, Bool.and_eq_true, Bool.not_eq_true'] at hval
    obtain ⟨⟨⟨hswd2, hcont⟩, hv⟩, hfs⟩ := hval
    have hcont2 : ('.' : Char) ∉ k.data := by
      intro hm
      have hcont3 : List.elem '.' k.data = false := hcont
      rw [List.elem_eq_true_of_mem hm] at hcont3
      exact absurd hcont3 (by decide)
    obtain ⟨j, hser1, hdes1⟩ := ih1 hv (checkKeyOk_plain hswd2 hcont2 v)
    obtain ⟨jfs, hser2, hdes2⟩ := ih2 hfs
    refine ⟨(k, j) :: jfs, ?_, ?_⟩
    · rw [serObj.eq_def]
      simp only [hser1, hser2, except_pure, ok_bind]
    · simp only [deserFields]
      rw [if_neg (ne_dollardate_of_plain hswd2), hdes1, hdes2]
  · intro i _
    exact ⟨[], by rw [serArr.eq_def]; rfl, rfl⟩
  · intro i v vs ih1 ih2 hval
    simp only [validDocList, Bool.and_eq_true] at hval
    obtain ⟨hv, hvs⟩ := hval
    obtain ⟨j, hser1, hdes1⟩ := ih1 hv (checkKeyOk_natKey i v)
    obtain ⟨js, hser2, hdes2⟩ := ih2 hvs
    refine ⟨j :: js, ?_, ?_⟩
    · rw [serArr.eq_def]
      simp only [hser1, hser2, except_pure, ok_bind, Option.getD_some]
    · simp only [deserList]
      rw [hdes1, hdes2]

/-- C1: for every valid document (leaves numbers, strings, booleans, null
or dates; interior nodes arrays or maps with non-reserved, distinct keys)
serialization succeeds and deserialize inverts it, dates at any nesting
depth included. -/
theorem C1_serialize_roundtrip (d : Value) (h : validDoc d = true) :
    ∃ j, serialize d = .ok (some j) ∧ deserialize j = d := by
  have h1 : startsWithDollar "" = false := by decide
  have h2 : ('.' : Char) ∉ ("" : String).data := by decide
  exact serialize_roundtrip_aux "" d h (checkKeyOk_plain h1 h2 d)

/-- C1 witness: a concrete document with a date nested inside an array and
inside a sub-map round-trips. -/
theorem C1_serialize_roundtrip_witness :
    ∃ j, serialize (Value.obj [("a", Value.date 7),
        ("b", Value.arr [Value.num 1, Value.date 3]),
        ("c", Value.obj [("d", Value.vnull)])]) = .ok (some j) ∧
      deserialize j = Value.obj [("a", Value.date 7),
        ("b", Value.arr [Value.num 1, Value.date 3]),
        ("c", Value.obj [("d", Value.vnull)])] :=
  C1_serialize_roundtrip _ (by decide)

-- ==============================================================
-- C2: id immutability of modify
-- ==============================================================

/-- bind on a throw propagates the thrown error. -/
theorem throw_bind {α β : Type} (e : JsErr) (f : α → Except JsErr β) :
    (throw e : Except JsErr α) >>= f = Except.error e := rfl

/-- throw of the error monad is the error constructor. -/
theorem except_throw {α : Type} (e : JsErr) :
    (throw e : Except JsErr α) = Except.error e := rfl

/-- A regular-expression semantics that matches nothing; claims about code
paths that never consult the host regex engine can be witnessed with it. -/
def rxoNone : RegexSem := ⟨fun _ _ => false, fun _ _ _ => false⟩

/-- C2: modify throws ImmutableId when the update carries an id key whose
value differs from the document id, and every document modify returns has
the id of the input document (the replacement branch restores it from the
document, and the final guard enforces it on the modifier branch). -/
theorem C2_modify_id_immutable (rxo : RegexSem) (obj updateQuery : Value)
    (query : Option Value) :
    (∀ keys, objKeysE updateQuery = .ok keys → keys.contains "_id" = true →
        jsGet updateQuery "_id" ≠ jsGet obj "_id" →
        modify rxo obj updateQuery query = .error .immutableId) ∧
    (∀ nd, modify rxo obj updateQuery query = .ok nd →
        jsGet nd "_id" = jsGet obj "_id") := by
  constructor
  · intro keys hk hc hne
    simp only [modify.eq_def, hk, ok_bind]
    rw [if_pos ⟨hc, hne⟩]
    rfl
  · intro nd h
    rw [modify.eq_def] at h
    cases hk : objKeysE updateQuery with
    | error e =>
        rw [hk] at h
        exact Except.noConfusion
          (show (Except.error e : Except JsErr Value) = Except.ok nd from h)
    | ok keys =>
        rw [hk] at h
        simp only [ok_bind] at h
        split at h
        · exact Except.noConfusion
            (show (Except.error JsErr.immutableId : Except JsErr Value)
              = Except.ok nd from h)
        · split at h
          · exact Except.noConfusion
              (show (Except.error JsErr.mixedModifiers : Except JsErr Value)
                = Except.ok nd from h)
          · split at h
            · simp only [pure_bind] at h
              split at h
              · exact Except.noConfusion
                  (show (Except.error JsErr.invalidField : Except JsErr Value)
                    = Except.ok nd from h)
              · split at h
                · exact Except.noConfusion
                    (show (Except.error JsErr.immutableId : Except JsErr Value)
                      = Except.ok nd from h)
                · rename_i hguard
                  have h2 : (Except.ok (jsSet (deepCopy updateQuery false)
                        "_id" (jsGet obj "_id")) : Except JsErr Value)
                      = Except.ok nd := h
                  rw [← Except.ok.inj h2]
                  exact (not_ne_iff.mp hguard).symm
            · cases hm : modLoop rxo updateQuery query (deepCopy obj false)
                  (uniqFirst keys) with
              | error e =>
                  rw [hm] at h
                  exact Except.noConfusion
                    (show (Except.error e : Except JsErr Value)
                      = Except.ok nd from h)
              | ok nd1 =>
                  rw [hm, ok_bind] at h
                  simp only [pure_bind] at h
                  split at h
                  · exact Except.noConfusion
                      (show (Except.error JsErr.invalidField : Except JsErr Value)
                        = Except.ok nd from h)
                  · split at h
                    · exact Except.noConfusion
                        (show (Except.error JsErr.immutableId : Except JsErr Value)
                          = Except.ok nd from h)
                    · rename_i hguard
                      have h2 : (Except.ok nd1 : Except JsErr Value)
                          = Except.ok nd := h
                      rw [← Except.ok.inj h2]
                      exact (not_ne_iff.mp hguard).symm

/-- C2 witness: an update with a different id is rejected with
ImmutableId. -/
theorem C2_modify_id_immutable_witness :
    modify rxoNone (Value.obj [("_id", Value.num 1)])
      (Value.obj [("_id", Value.num 2)]) none = .error .immutableId :=
  (C2_modify_id_immutable rxoNone (Value.obj [("_id", Value.num 1)])
      (Value.obj [("_id", Value.num 2)]) none).1 ["_id"] rfl (by decide)
    (by decide)

-- ==============================================================
-- Machinery for single modifier updates (C4, C5)
-- ==============================================================

/-- deepCopy without strict keys is the identity on modeled values. -/
theorem deepCopy_false_id (v : Value) : deepCopy v false = v := by
  refine deepCopy.induct
    (fun v sk => sk = false → deepCopy v sk = v)
    (fun fs sk => sk = false → deepCopyFields fs sk = fs)
    (fun xs sk => sk = false → deepCopyList xs sk = xs)
    ?_ ?_ ?_ ?_ ?_ ?_ ?_ ?_ ?_ ?_ ?_ ?_ ?_ v false rfl
  · intro sk b _; rfl
  · intro sk n _; rfl
  · intro sk s _; rfl
  · intro sk _; rfl
  · intro sk t _; rfl
  · intro sk xs ih h
    rw [deepCopy, ih h]
  · intro sk fs ih h
    rw [deepCopy, ih h]
  · intro sk _; rfl
  · intro sk _; rfl
  · intro sk v vs ih1 ih2 h
    rw [deepCopyList, ih1 h, ih2 h]
  · intro sk _; rfl
  · intro sk k v fs hcond ih1 ih2 h
    rw [deepCopyFields, if_pos hcond, ih1 h, ih2 h]
  · intro sk k v fs hcond ih h
    subst h
    simp at hcond

/-- A key update leaves the lookup of every other key unchanged. -/
theorem lookupField_setFieldList_ne (k target : String) (x : Value)
    (h : target ≠ k) :
    ∀ fs, lookupField (setFieldList fs k x) target = lookupField fs target := by
  intro fs
  induction fs with
  | nil =>
      simp only [setFieldList, lookupField]
      rw [if_neg (fun he => h (he.symm))]
  | cons p rest ih =>
      obtain ⟨a, b⟩ := p
      simp only [setFieldList]
      by_cases hak : a = k
      · rw [if_pos hak]
        simp only [lookupField]
        have hat : ¬(a = target) := fun he => h (he.symm.trans hak)
        rw [if_neg hat, if_neg hat]
      · rw [if_neg hak]
        simp only [lookupField]
        by_cases hat : a = target
        · rw [if_pos hat, if_pos hat]
        · rw [if_neg hat, if_neg hat, ih]

/-- Setting a field of a map leaves every other field read unchanged. -/
theorem jsGet_jsSet_ne (fs : List (String × Value)) (k target : String)
    (x : Value) (h : target ≠ k) :
    jsGet (jsSet (Value.obj fs) k x) target = jsGet (Value.obj fs) target := by
  simp only [jsSet, jsGet]
  rw [lookupField_setFieldList_ne k target x h]

/-- A defined property read comes from a stored field. -/
theorem lookupField_of_jsGet {fs : List (String × Value)} {f : String}
    {w : Value} (hne : w ≠ Value.undef) (h : jsGet (Value.obj fs) f = w) :
    lookupField fs f = some w := by
  simp only [jsGet] at h
  cases hl : lookupField fs f with
  | none =>
      rw [hl] at h
      have h2 : Value.undef = w := h
      exact absurd h2.symm hne
  | some u => rw [hl] at h; simp only [Option.getD_some] at h; rw [h]

/-- modLoop on a nonempty modifier list (the recursion equation). -/
theorem modLoop_cons (rxo : RegexSem) (u : Value) (query : Option Value)
    (nd0 : Value) (m : String) (rest : List String) :
    modLoop rxo u query nd0 (m :: rest) = (do
      if knownModifier m = false then throw .unknownModifier
      if jsTypeof (jsGet u m) ≠ "object" then throw .badModifierArg
      let ks ← objKeysE (jsGet u m)
      let newDoc1 ← keyLoop rxo m (jsGet u m) query nd0 ks
      modLoop rxo u query newDoc1 rest) := by
  rw [modLoop.eq_def]

/-- modLoop on the empty modifier list. -/
theorem modLoop_nil (rxo : RegexSem) (u : Value) (query : Option Value)
    (nd0 : Value) : modLoop rxo u query nd0 [] = pure nd0 := by
  rw [modLoop.eq_def]

/-- keyLoop on a nonempty descriptor list (the recursion equation). -/
theorem keyLoop_cons (rxo : RegexSem) (m : String) (inner : Value)
    (query : Option Value) (nd0 : Value) (k : String) (rest : List String) :
    keyLoop rxo m inner query nd0 (k :: rest) = (do
      let newDoc1 ← modApply rxo m nd0 (k.splitOn ".") (jsGet inner k) query
      keyLoop rxo m inner query newDoc1 rest) := by
  rw [keyLoop.eq_def]

/-- keyLoop on the empty descriptor list. -/
theorem keyLoop_nil (rxo : RegexSem) (m : String) (inner : Value)
    (query : Option Value) (nd0 : Value) :
    keyLoop rxo m inner query nd0 [] = pure nd0 := by
  rw [keyLoop.eq_def]

set_option maxHeartbeats 1000000 in
/-- With one path part and a map target the modifier goes through the
helper straight to the last step function. -/
theorem modApply_single (rxo : RegexSem) (m : String)
    (gfs : List (String × Value)) (f : String) (v : Value) :
    modApply rxo m (Value.obj gfs) [f] v none =
      applyLastStep rxo m (Value.obj gfs) f v := by
  rw [modApply.eq_def]

/-- One modifier name with one field descriptor runs exactly one modifier
application. -/
theorem modLoop_single (rxo : RegexSem) (m f : String) (v nd0 : Value)
    (hkm : knownModifier m = true) :
    modLoop rxo (.obj [(m, .obj [(f, v)])]) none nd0 [m] =
      modApply rxo m nd0 (f.splitOn ".") v none := by
  have hu : jsGet (Value.obj [(m, Value.obj [(f, v)])]) m
      = Value.obj [(f, v)] := by
    simp [jsGet, lookupField]
  have hjf : jsGet (Value.obj [(f, v)]) f = v := by
    simp [jsGet, lookupField]
  rw [modLoop_cons]
  rw [if_neg (by simp [hkm])]
  rw [hu]
  rw [if_neg (by simp [jsTypeof])]
  have hks : objKeysE (Value.obj [(f, v)]) = Except.ok [f] := rfl
  rw [hks]
  simp only [pure_bind, ok_bind]
  rw [keyLoop_cons, hjf]
  simp only [keyLoop_nil, modLoop_nil]
  cases hma : modApply rxo m nd0 (f.splitOn ".") v none with
  | error e => rfl
  | ok nd1 => rfl

/-- modify on a single dollar modifier: the update passes the key guards,
the document is deep copied (the identity in the model), the one modifier
runs, and the two result guards pass by the given hypotheses. -/
theorem modify_single_ok (rxo : RegexSem) (m f : String) (v doc nd : Value)
    (hm : startsWithDollar m = true) (hmne : m ≠ "_id")
    (hml : modLoop rxo (.obj [(m, .obj [(f, v)])]) none (deepCopy doc false)
        [m] = .ok nd)
    (hchk : checkObjOk nd = true)
    (hid : jsGet doc "_id" = jsGet nd "_id") :
    modify rxo doc (.obj [(m, .obj [(f, v)])]) none = .ok nd := by
  have hkeys : objKeysE (Value.obj [(m, Value.obj [(f, v)])])
      = Except.ok [m] := rfl
  have hg1 : ¬(([m] : List String).contains "_id" = true
      ∧ jsGet (Value.obj [(m, Value.obj [(f, v)])]) "_id"
        ≠ jsGet doc "_id") := by
    rintro ⟨hc, -⟩
    simp only [List.contains_cons, List.contains_nil, Bool.or_false,
      beq_iff_eq] at hc
    exact hmne hc.symm
  have hflt : (List.filter startsWithDollar [m]).length = 1 := by
    simp [List.filter, hm]
  have huniq : uniqFirst [m] = [m] := rfl
  rw [modify.eq_def, hkeys]
  simp only [ok_bind]
  rw [if_neg hg1]
  rw [if_neg (by rw [hflt]; simp)]
  rw [if_neg (by rw [hflt]; simp), huniq, hml]
  simp only [pure_bind, ok_bind]
  rw [if_neg (by simp [hchk]), if_neg (not_ne_iff.mpr hid)]
  rfl

/-- The addToSet step on an array field with a value that does not carry a
truthy each key: append exactly when no current element compares equal
under compareThings. -/
theorem lastAddToSet_noeach (fs : List (String × Value)) (f : String)
    (xs : List Value) (v : Value)
    (hf : jsGet (Value.obj fs) f = Value.arr xs)
    (heach : truthy (jsGet v "$each") = false) :
    lastAddToSet (Value.obj fs) f v =
      .ok (if xs.any (fun e => compareThings e v = 0) then Value.obj fs
           else jsSet (Value.obj fs) f (Value.arr (xs ++ [v]))) := by
  have hlk : lookupField fs f = some (Value.arr xs) :=
    lookupField_of_jsGet (by simp) hf
  have hown : hasOwnProp (Value.obj fs) f = true := by
    simp [hasOwnProp, hlk]
  rw [lastAddToSet.eq_def]
  simp only [hown, if_true, hf]
  rw [dif_neg (fun hcc => absurd hcc.2 (by simp [heach]))]
  split <;> rfl

/-- compareThings on two numbers is the basic comparison. -/
theorem compareThings_num (x y : Int) :
    compareThings (Value.num x) (Value.num y) = compareNSBInt x y := by
  rw [compareThings.eq_def]

/-- compareThings on two maps goes through the sorted key walk. -/
theorem compareThings_obj (fa fb : List (String × Value)) :
    compareThings (Value.obj fa) (Value.obj fb) =
      compareSortedKeys (sortKeys (fa.map Prod.fst))
        (sortKeys (fb.map Prod.fst)) fa fb := by
  rw [compareThings.eq_def]

/-- The sorted key walk on two exhausted key lists. -/
theorem compareSortedKeys_nil (fa fb : List (String × Value)) :
    compareSortedKeys [] [] fa fb = 0 := by
  rw [compareSortedKeys.eq_def]

/-- The sorted key walk step. -/
theorem compareSortedKeys_cons (ka kb : String) (kas kbs : List String)
    (fa fb : List (String × Value)) :
    compareSortedKeys (ka :: kas) (kb :: kbs) fa fb =
      (let c := compareThings ((lookupField fa ka).getD .undef)
        ((lookupField fb kb).getD .undef)
       if c ≠ 0 then c else compareSortedKeys kas kbs fa fb) := by
  rw [compareSortedKeys.eq_def]

/-- The dispatch table at the addToSet name. -/
theorem applyLastStep_addToSet (rxo : RegexSem) (o : Value) (f : String)
    (v : Value) :
    applyLastStep rxo "$addToSet" o f v = lastAddToSet o f v := by
  simp [applyLastStep]

/-- C4 (amended): on a map document whose dot free non id field f holds an
array, the update with the addToSet modifier at f appends the value
exactly when no current element compares equal under compareThings, the
total order of the module; the deep equality of query matching
(areThingsEqual) is not what the code consults (see the counterexample). -/
theorem C4_add_to_set (rxo : RegexSem) (fs : List (String × Value))
    (f : String) (xs : List Value) (v : Value)
    (hf : jsGet (Value.obj fs) f = Value.arr xs)
    (hsplit : f.splitOn "." = [f])
    (hnid : f ≠ "_id")
    (heach : truthy (jsGet v "$each") = false) :
    (xs.any (fun e => compareThings e v = 0) = true →
        checkObjOk (Value.obj fs) = true →
        modify rxo (Value.obj fs)
          (.obj [("$addToSet", .obj [(f, v)])]) none = .ok (Value.obj fs)) ∧
    (xs.any (fun e => compareThings e v = 0) = false →
        checkObjOk (jsSet (Value.obj fs) f (Value.arr (xs ++ [v]))) = true →
        modify rxo (Value.obj fs)
          (.obj [("$addToSet", .obj [(f, v)])]) none
          = .ok (jsSet (Value.obj fs) f (Value.arr (xs ++ [v])))) := by
  have hcore : modLoop rxo (.obj [("$addToSet", .obj [(f, v)])]) none
      (deepCopy (Value.obj fs) false) ["$addToSet"]
      = .ok (if xs.any (fun e => compareThings e v = 0) then Value.obj fs
             else jsSet (Value.obj fs) f (Value.arr (xs ++ [v]))) := by
    rw [deepCopy_false_id]
    rw [modLoop_single rxo "$addToSet" f v (Value.obj fs) (by decide)]
    rw [hsplit, modApply_single, applyLastStep_addToSet]
    exact lastAddToSet_noeach fs f xs v hf heach
  constructor
  · intro hany hchk
    refine modify_single_ok rxo "$addToSet" f v (Value.obj fs) (Value.obj fs)
      (by decide) (by decide) ?_ hchk rfl
    rw [hcore, hany]
    simp
  · intro hany hchk
    refine modify_single_ok rxo "$addToSet" f v (Value.obj fs)
      (jsSet (Value.obj fs) f (Value.arr (xs ++ [v])))
      (by decide) (by decide) ?_ hchk ?_
    · rw [hcore, hany]
      simp
    · exact
        (jsGet_jsSet_ne fs f "_id" (Value.arr (xs ++ [v])) (Ne.symm hnid)).symm

/-- C4 witness: adding an already present number through modify leaves the
array as it is. -/
theorem C4_add_to_set_witness :
    modify rxoNone (Value.obj [("f", Value.arr [Value.num 1])])
      (.obj [("$addToSet", .obj [("f", Value.num 1)])]) none
      = .ok (Value.obj [("f", Value.arr [Value.num 1])]) := by
  have hsplit : ("f" : String).splitOn "." = ["f"] := by
    rw [String.splitOn, if_neg (by decide), String.splitOnAux.eq_def]
    rw [if_neg (by decide), if_neg (by decide), String.splitOnAux.eq_def]
    rw [if_pos (by decide)]
    decide
  have hcmp : compareThings (Value.num 1) (Value.num 1) = 0 := by
    rw [compareThings_num]
    decide
  have hany : ([Value.num 1].any
      (fun e => compareThings e (Value.num 1) = 0)) = true := by
    simp [List.any, hcmp]
  exact (C4_add_to_set rxoNone [("f", Value.arr [Value.num 1])] "f"
      [Value.num 1] (Value.num 1) (by decide) hsplit (by decide)
      (by decide)).1 hany (by decide)

/-- C4 counterexample: the map under key b is deep-equal (areThingsEqual,
the equality of query matching) to no element of the array, yet addToSet
does not append it, because the code tests compareThings equality, which
identifies maps holding equal values under different keys. -/
theorem C4_counterexample :
    areThingsEqual (Value.obj [("a", Value.num 1)])
        (Value.obj [("b", Value.num 1)]) = false ∧
    modify rxoNone
      (Value.obj [("f", Value.arr [Value.obj [("a", Value.num 1)]])])
      (.obj [("$addToSet", .obj [("f", Value.obj [("b", Value.num 1)])])])
      none
      = .ok (Value.obj [("f", Value.arr [Value.obj [("a", Value.num 1)]])]) := by
  have hsplit : ("f" : String).splitOn "." = ["f"] := by
    rw [String.splitOn, if_neg (by decide), String.splitOnAux.eq_def]
    rw [if_neg (by decide), if_neg (by decide), String.splitOnAux.eq_def]
    rw [if_pos (by decide)]
    decide
  have hcmp : compareThings (Value.obj [("a", Value.num 1)])
      (Value.obj [("b", Value.num 1)]) = 0 := by
    rw [compareThings_obj]
    show compareSortedKeys ["a"] ["b"] _ _ = 0
    rw [compareSortedKeys_cons]
    simp [lookupField, compareThings_num, compareNSBInt, compareSortedKeys_nil]
  constructor
  · rw [areThingsEqual.eq_def]
    simp [isNSBN, isDate, isArr, isContainer, objKeys, eqAllKeys.eq_def]
  · have hany : ([Value.obj [("a", Value.num 1)]].any
        (fun e => compareThings e (Value.obj [("b", Value.num 1)]) = 0))
        = true := by
      simp [List.any, hcmp]
    have hml := lastAddToSet_noeach [("f", Value.arr [Value.obj [("a", Value.num 1)]])]
      "f" [Value.obj [("a", Value.num 1)]] (Value.obj [("b", Value.num 1)])
      (by decide) (by decide)
    refine modify_single_ok rxoNone "$addToSet" "f"
      (Value.obj [("b", Value.num 1)])
      (Value.obj [("f", Value.arr [Value.obj [("a", Value.num 1)]])])
      (Value.obj [("f", Value.arr [Value.obj [("a", Value.num 1)]])])
      (by decide) (by decide) ?_ (by decide) rfl
    rw [deepCopy_false_id]
    rw [modLoop_single rxoNone "$addToSet" "f" (Value.obj [("b", Value.num 1)])
      _ (by decide)]
    rw [hsplit, modApply_single, applyLastStep_addToSet, hml, hany]
    simp

-- ==============================================================
-- C5: pullAll
-- ==============================================================

/-- Split of a one character field name on the dot. -/
theorem splitOn_f : ("f" : String).splitOn "." = ["f"] := by
  rw [String.splitOn, if_neg (by decide), String.splitOnAux.eq_def]
  rw [if_neg (by decide), if_neg (by decide), String.splitOnAux.eq_def]
  rw [if_pos (by decide)]
  decide

/-- Split of the one character query key on the dot. -/
theorem splitOn_a : ("a" : String).splitOn "." = ["a"] := by
  rw [String.splitOn, if_neg (by decide), String.splitOnAux.eq_def]
  rw [if_neg (by decide), if_neg (by decide), String.splitOnAux.eq_def]
  rw [if_pos (by decide)]
  decide

set_option maxHeartbeats 1600000 in
/-- The recursion equation of match on a non primitive document and a map
query. -/
theorem matchM_obj (rxo : RegexSem) (obj : Value)
    (qfs : List (String × Value)) (h : isPrimitiveType obj = false) :
    matchM rxo obj (.obj qfs) = matchFields rxo obj qfs := by
  delta matchM matchFields Nedb.matchM._mutual
  rw [WellFounded.fix_eq]
  have h2 : (isPrimitiveType obj || isPrimitiveType (Value.obj qfs)) = false := by
    rw [h]
    rfl
  simp only [h2]
  rw [dif_neg (by decide)]

set_option maxHeartbeats 1600000 in
/-- The entry loop of match on the exhausted query field list. -/
theorem matchFields_nil (rxo : RegexSem) (obj : Value) :
    matchFields rxo obj [] = pure true := by
  delta matchFields Nedb.matchM._mutual
  rw [WellFounded.fix_eq]

set_option maxHeartbeats 1600000 in
/-- The recursion equation of the entry loop of match. -/
theorem matchFields_cons (rxo : RegexSem) (obj : Value) (qk : String)
    (qv : Value) (rest : List (String × Value)) :
    matchFields rxo obj ((qk, qv) :: rest) = (do
      let r ← if _h : startsWithDollar qk then applyLogical rxo obj qk qv
        else matchQueryPart rxo obj qk qv false
      if _h : r then matchFields rxo obj rest else pure false) := by
  delta matchFields applyLogical matchQueryPart Nedb.matchM._mutual
  rw [WellFounded.fix_eq]

set_option maxHeartbeats 1600000 in
/-- matchQueryPart hands the resolved dot value to the dispatch. -/
theorem matchQueryPart_split (rxo : RegexSem) (obj : Value)
    (queryKey : String) (qv : Value) (t : Bool) (p0 : String)
    (prest : List String)
    (hsp : queryKey.splitOn "." = p0 :: prest) :
    matchQueryPart rxo obj queryKey qv t
      = matchQPonV rxo obj queryKey qv t (getDotValue obj (p0 :: prest))
          (fun xs hxs => getDot_arr_lt obj (p0 :: prest) (by simp) xs hxs) := by
  delta matchQueryPart matchQPonV Nedb.matchM._mutual
  rw [WellFounded.fix_eq]
  conv_lhs => whnf
  rw [hsp]

set_option maxHeartbeats 1600000 in
/-- The dispatch goes to the value part when the resolved value is not an
array. -/
theorem matchQPonV_value (rxo : RegexSem) (obj : Value) (queryKey : String)
    (qv : Value) (t : Bool) (ov : Value)
    (hlt : ∀ xs, ov = Value.arr xs → 2 + vsizeList xs < vsize obj)
    (hno : isArr ov = false) :
    matchQPonV rxo obj queryKey qv t ov hlt = matchPartValue rxo ov qv := by
  delta matchQPonV matchPartValue Nedb.matchM._mutual
  rw [WellFounded.fix_eq]
  cases ov with
  | arr xs => exact absurd hno (by simp [isArr])
  | undef => cases t <;> rfl
  | vnull => cases t <;> rfl
  | num n => cases t <;> rfl
  | str sv => cases t <;> rfl
  | bool b => cases t <;> rfl
  | date d => cases t <;> rfl
  | obj gfs => cases t <;> rfl

/-- matchQueryPart delegates to the value part when the resolved field
value is not an array. -/
theorem matchQueryPart_value (rxo : RegexSem) (obj : Value)
    (queryKey : String) (qv : Value) (t : Bool) (p0 : String)
    (prest : List String) (ov : Value)
    (hsp : queryKey.splitOn "." = p0 :: prest)
    (ho : getDotValue obj (p0 :: prest) = ov)
    (hno : isArr ov = false) :
    matchQueryPart rxo obj queryKey qv t = matchPartValue rxo ov qv := by
  rw [matchQueryPart_split rxo obj queryKey qv t p0 prest hsp]
  rw [matchQPonV_value rxo obj queryKey qv t _ _ (by rw [ho]; exact hno)]
  rw [ho]

set_option maxHeartbeats 1600000 in
/-- The value part of matchQueryPart on a number query value is the basic
deep equality tail. -/
theorem matchPartValue_num (rxo : RegexSem) (ov : Value) (n : Int) :
    matchPartValue rxo ov (.num n) = pure (basicTail ov (.num n)) := by
  delta matchPartValue Nedb.matchM._mutual
  rw [WellFounded.fix_eq]

/-- getDotValue of a single part path on a map is the property read. -/
theorem getDotValue_single (fs : List (String × Value)) (f : String) :
    getDotValue (Value.obj fs) [f] = jsGet (Value.obj fs) f := by
  rw [getDotValue.eq_def, if_neg (by simp [truthy])]

/-- Was the element matched by no member of the pull list (the keep test
of pullAll)? -/
def keptB (rxo : RegexSem) (vs : List Value) (e : Value) : Bool :=
  match someMatchE rxo e vs with
  | .ok false => true
  | _ => false

/-- The pullAll scan keeps, in order, exactly the elements whose some test
over the pull list succeeds negatively. -/
theorem filterNotMatchedE_filter (rxo : RegexSem) (vs : List Value) :
    ∀ xs keep, filterNotMatchedE rxo vs xs = .ok keep →
      keep = xs.filter (keptB rxo vs) := by
  intro xs
  induction xs with
  | nil =>
      intro keep h
      have h2 : ([] : List Value) = keep :=
        Except.ok.inj (show Except.ok [] = Except.ok keep from h)
      rw [← h2]
      rfl
  | cons e rest ih =>
      intro keep h
      simp only [filterNotMatchedE] at h
      cases hsm : someMatchE rxo e vs with
      | error er =>
          rw [hsm] at h
          exact absurd h (by simp [error_bind])
      | ok b =>
          rw [hsm, ok_bind] at h
          cases ht : filterNotMatchedE rxo vs rest with
          | error er =>
              rw [ht] at h
              exact absurd h (by simp [error_bind])
          | ok tl =>
              rw [ht, ok_bind] at h
              have h2 : (if b then tl else e :: tl) = keep :=
                Except.ok.inj (show Except.ok (if b then tl else e :: tl)
                  = Except.ok keep from h)
              rw [← h2, ih tl ht]
              simp only [List.filter_cons, keptB, hsm]
              cases b <;> simp

/-- The dispatch table at the pullAll name. -/
theorem applyLastStep_pullAll (rxo : RegexSem) (o : Value) (f : String)
    (v : Value) :
    applyLastStep rxo "$pullAll" o f v = lastPullAll rxo o f v := by
  simp [applyLastStep]

/-- The pullAll step on an array field and array argument. -/
theorem lastPullAll_arr (rxo : RegexSem) (fs : List (String × Value))
    (f : String) (xs vs keep : List Value)
    (hf : jsGet (Value.obj fs) f = Value.arr xs)
    (hkeep : filterNotMatchedE rxo vs xs = .ok keep) :
    lastPullAll rxo (Value.obj fs) f (.arr vs)
      = .ok (jsSet (Value.obj fs) f (Value.arr keep)) := by
  simp only [lastPullAll, hf]
  rw [hkeep, ok_bind]
  rfl

/-- C5 (amended): on a map document whose dot free non id field f holds an
array, the pullAll update removes exactly the elements that MATCH (in the
query matching sense) at least one member of the pull list, keeping the
others in order; the claim said deep-equal, but the code pulls by query
match, which also removes proper super-maps of a member (see the
counterexample). -/
theorem C5_pull_all (rxo : RegexSem) (fs : List (String × Value))
    (f : String) (xs vs keep : List Value)
    (hf : jsGet (Value.obj fs) f = Value.arr xs)
    (hsplit : f.splitOn "." = [f])
    (hnid : f ≠ "_id")
    (hkeep : filterNotMatchedE rxo vs xs = .ok keep)
    (hchk : checkObjOk (jsSet (Value.obj fs) f (Value.arr keep)) = true) :
    keep = xs.filter (keptB rxo vs) ∧
    modify rxo (Value.obj fs) (.obj [("$pullAll", .obj [(f, .arr vs)])]) none
      = .ok (jsSet (Value.obj fs) f (Value.arr keep)) := by
  constructor
  · exact filterNotMatchedE_filter rxo vs xs keep hkeep
  · refine modify_single_ok rxo "$pullAll" f (.arr vs) (Value.obj fs)
      (jsSet (Value.obj fs) f (Value.arr keep))
      (by decide) (by decide) ?_ hchk ?_
    · rw [deepCopy_false_id,
        modLoop_single rxo "$pullAll" f (.arr vs) (Value.obj fs) (by decide),
        hsplit, modApply_single, applyLastStep_pullAll]
      exact lastPullAll_arr rxo fs f xs vs keep hf hkeep
    · exact (jsGet_jsSet_ne fs f "_id" (Value.arr keep) (Ne.symm hnid)).symm

/-- C5 witness: pulling with an empty list keeps every element in order
and the document comes back with the field rewritten to the same array. -/
theorem C5_pull_all_witness :
    [Value.num 1] = [Value.num 1].filter (keptB rxoNone []) ∧
    modify rxoNone (Value.obj [("f", Value.arr [Value.num 1])])
      (.obj [("$pullAll", .obj [("f", Value.arr [])])]) none
      = .ok (jsSet (Value.obj [("f", Value.arr [Value.num 1])]) "f"
          (Value.arr [Value.num 1])) :=
  C5_pull_all rxoNone [("f", Value.arr [Value.num 1])] "f" [Value.num 1] []
    [Value.num 1] (by decide) splitOn_f (by decide) rfl (by decide)

/-- C5 counterexample: the stored element holds keys a and b and is
deep-equal to no member of the pull list, whose only member holds the
single key a; the claim says such an element is kept, yet pullAll removes
it, because the code matches elements against members as query documents
and the sub-map query succeeds. -/
theorem C5_counterexample :
    areThingsEqual (Value.obj [("a", Value.num 1), ("b", Value.num 2)])
        (Value.obj [("a", Value.num 1)]) = false ∧
    modify rxoNone
      (Value.obj [("f",
        Value.arr [Value.obj [("a", Value.num 1), ("b", Value.num 2)]])])
      (.obj [("$pullAll", .obj [("f",
        Value.arr [Value.obj [("a", Value.num 1)]])])]) none
      = .ok (Value.obj [("f", Value.arr [])]) := by
  have hgd : getDotValue (Value.obj [("a", Value.num 1), ("b", Value.num 2)])
      ["a"] = Value.num 1 := by
    rw [getDotValue_single]
    decide
  have hate : areThingsEqual (Value.num 1) (Value.num 1) = true := by
    rw [areThingsEqual.eq_def]
    decide
  have hq : matchQueryPart rxoNone
      (Value.obj [("a", Value.num 1), ("b", Value.num 2)]) "a"
      (Value.num 1) false = .ok true := by
    rw [matchQueryPart_value rxoNone _ "a" (Value.num 1) false "a" []
      (Value.num 1) splitOn_a hgd (by decide)]
    rw [matchPartValue_num]
    simp [basicTail, hate, except_pure]
  have hm : matchM rxoNone
      (Value.obj [("a", Value.num 1), ("b", Value.num 2)])
      (Value.obj [("a", Value.num 1)]) = .ok true := by
    rw [matchM_obj rxoNone _ _ (by decide), matchFields_cons]
    rw [dif_neg (by decide)]
    rw [hq, ok_bind]
    conv_lhs => whnf
    rw [matchFields_nil]
    rfl
  have hsm : someMatchE rxoNone
      (Value.obj [("a", Value.num 1), ("b", Value.num 2)])
      [Value.obj [("a", Value.num 1)]] = .ok true := by
    simp only [someMatchE, hm, ok_bind]
    rfl
  have hkeep : filterNotMatchedE rxoNone [Value.obj [("a", Value.num 1)]]
      [Value.obj [("a", Value.num 1), ("b", Value.num 2)]] = .ok [] := by
    simp only [filterNotMatchedE, hsm, ok_bind]
    rfl
  constructor
  · rw [areThingsEqual.eq_def]
    simp [isNSBN, isDate, isArr, isContainer, objKeys]
  · have hres : jsSet (Value.obj [("f",
        Value.arr [Value.obj [("a", Value.num 1), ("b", Value.num 2)]])])
        "f" (Value.arr []) = Value.obj [("f", Value.arr [])] := by decide
    refine modify_single_ok rxoNone "$pullAll" "f"
      (Value.arr [Value.obj [("a", Value.num 1)]])
      (Value.obj [("f",
        Value.arr [Value.obj [("a", Value.num 1), ("b", Value.num 2)]])])
      (Value.obj [("f", Value.arr [])])
      (by decide) (by decide) ?_ (by decide) (by decide)
    rw [deepCopy_false_id,
      modLoop_single rxoNone "$pullAll" "f" _ _ (by decide),
      splitOn_f, modApply_single, applyLastStep_pullAll]
    rw [lastPullAll_arr rxoNone _ "f"
      [Value.obj [("a", Value.num 1), ("b", Value.num 2)]]
      [Value.obj [("a", Value.num 1)]] [] (by decide) hkeep, hres]

end Nedb
